import Mathlib

/-!
# CCLib: the CC-Debugger protocol driver (`Arduino/CCLib/CCDebugger.cpp`)

A shallow embedding of the `CCDebugger` class.  The object's members and the
instrumented board (the chronological record of every pin call, and the number
of `digitalRead` samples taken so far) form one explicit state; every member
function is a state transformer over it.  The level seen by the k-th
`digitalRead` is given by a sample stream `din : Nat → Nat`.

The only unbounded loop of the driver is the ready poll of `switchRead`; it is
run under an injected bound on the number of ready checks, and an execution
that reaches the bound while the line is still HIGH ends as `spinning`, keeping
the state it reached.
-/

namespace CCLib

/-! ## Arduino core constants -/

/-- Arduino core level LOW. -/
def LOW : Nat := 0
/-- Arduino core level HIGH. -/
def HIGH : Nat := 1
/-- Arduino core pin mode INPUT. -/
def INPUT : Nat := 0
/-- Arduino core pin mode OUTPUT. -/
def OUTPUT : Nat := 1

/-- One call made to the board: the three Arduino pin calls and the busy-wait
of `cc_delay`. -/
inductive LineOp where
  | pinMode (pin : Int) (mode : Nat)
  | digitalWrite (pin : Int) (level : Nat)
  | digitalRead (pin : Int) (level : Nat)
  | cc_delay (d : Nat)
deriving DecidableEq, Repr

/-- The members of a `CCDebugger` object, followed by the instrumented board:
`log` is the chronological record of the calls made so far (oldest first) and
`reads` the number of `digitalRead` samples taken so far. -/
structure CCDebugger where
  pinRST : Int
  pinDC : Int
  pinDD_I : Int
  pinDD_O : Int
  pinReadLED : Int
  pinWriteLED : Int
  active : Bool
  inDebugMode : Bool
  errorFlag : Nat
  ddIsOutput : Nat
  log : List LineOp
  reads : Nat
deriving DecidableEq, Repr

/-- How a call ends: it returned `val` in state `s`, or it was still polling
in state `s` when the injected bound on ready checks was reached. -/
inductive Outcome (α : Type) where
  | done (val : α) (s : CCDebugger)
  | spinning (s : CCDebugger)
deriving DecidableEq, Repr

/-- The state in which a call ended. -/
def Outcome.state {α : Type} : Outcome α → CCDebugger
  | .done _ s => s
  | .spinning s => s

/-- The value a call returned, when it returned. -/
def Outcome.value {α : Type} : Outcome α → Option α
  | .done v _ => some v
  | .spinning _ => none

/-- A member function: a transformer of the object-and-board state. -/
def M (α : Type) : Type := CCDebugger → Outcome α

/-- Sequencing: continue with `f` from where a call returned; a call that is
still polling stays so. -/
def Outcome.andThen {α β : Type} (o : Outcome α) (f : α → M β) : Outcome β :=
  match o with
  | .done a s1 => f a s1
  | .spinning s1 => .spinning s1

instance : Monad M where
  pure a := fun s => .done a s
  bind m f := fun s => (m s).andThen f

/-- The current object (C++ `this`). -/
def self : M CCDebugger := fun s => .done s s

/-- Assign members of the object. -/
def assign (f : CCDebugger → CCDebugger) : M Unit := fun s => .done () (f s)

/-! ## Board calls -/

def pinMode (pin : Int) (mode : Nat) : M Unit :=
  assign fun s => { s with log := s.log ++ [LineOp.pinMode pin mode] }

def digitalWrite (pin : Int) (level : Nat) : M Unit :=
  assign fun s => { s with log := s.log ++ [LineOp.digitalWrite pin level] }

def digitalRead (din : Nat → Nat) (pin : Int) : M Nat := fun s =>
  .done (din s.reads)
    { s with log := s.log ++ [LineOp.digitalRead pin (din s.reads)], reads := s.reads + 1 }

/-- Source `cc_delay`: a busy wait of `d` iterations; recorded on the board. -/
def cc_delay (d : Nat) : M Unit :=
  assign fun s => { s with log := s.log ++ [LineOp.cc_delay d] }

namespace CCDebugger

/-! ## Low level functions -/

/-- Source `CCDebugger::setDDDirection`. -/
def setDDDirection (direction : Nat) : M Unit := do
  let this ← self
  -- Switch direction if changed
  if direction = this.ddIsOutput then
    return ()
  assign fun s => { s with ddIsOutput := direction }
  -- Handle new direction
  if direction ≠ 0 then
    digitalWrite this.pinDD_I LOW
    pinMode this.pinDD_O OUTPUT
    digitalWrite this.pinDD_O LOW
  else
    digitalWrite this.pinDD_I LOW
    pinMode this.pinDD_O INPUT
    digitalWrite this.pinDD_O LOW

/-- Members the constructor leaves unassigned take whatever the storage held. -/
structure Uninit where
  inDebugMode : Bool
  errorFlag : Nat
  ddIsOutput : Nat
deriving DecidableEq, Repr

/-- The body of the constructor `CCDebugger::CCDebugger`, run on the raw
storage. -/
def init (pinRST pinDC pinDD_I pinDD_O : Int) : M Unit := do
  -- Keep references, reset LEDs
  assign fun s => { s with pinRST := pinRST, pinDC := pinDC, pinDD_I := pinDD_I,
                           pinDD_O := pinDD_O, pinReadLED := 0, pinWriteLED := 0 }
  -- Prepare CC Pins
  pinMode pinDC OUTPUT
  pinMode pinDD_I INPUT
  pinMode pinDD_O OUTPUT
  pinMode pinRST OUTPUT
  digitalWrite pinDC LOW
  digitalWrite pinDD_I LOW
  digitalWrite pinDD_O LOW
  digitalWrite pinRST LOW
  -- Prepare default direction
  setDDDirection INPUT
  -- We are active by default
  assign fun s => { s with active := true }

/-- Raw storage of an object before its constructor ran, on a fresh board. -/
def raw (u : Uninit) : CCDebugger :=
  { pinRST := 0, pinDC := 0, pinDD_I := 0, pinDD_O := 0, pinReadLED := 0, pinWriteLED := 0,
    active := false, inDebugMode := u.inDebugMode, errorFlag := u.errorFlag,
    ddIsOutput := u.ddIsOutput, log := [], reads := 0 }

/-- Source constructor `CCDebugger::CCDebugger(pinRST, pinDC, pinDD_I, pinDD_O)`. -/
def construct (pinRST pinDC pinDD_I pinDD_O : Int) (u : Uninit) : CCDebugger :=
  (init pinRST pinDC pinDD_I pinDD_O (raw u)).state

/-- Source `CCDebugger::setLED`. -/
def setLED (pinReadLED pinWriteLED : Int) : M Unit := do
  -- Prepare read LED
  assign fun s => { s with pinReadLED := pinReadLED }
  if pinReadLED ≠ 0 then
    pinMode pinWriteLED OUTPUT
    digitalWrite pinWriteLED LOW
  -- Prepare write LED
  assign fun s => { s with pinWriteLED := pinWriteLED }
  if pinWriteLED ≠ 0 then
    pinMode pinWriteLED OUTPUT
    digitalWrite pinWriteLED LOW

/-- Source `CCDebugger::error`. -/
def error : M Nat := do
  let this ← self
  return this.errorFlag

/-- Source `CCDebugger::enter`. -/
def enter : M Nat := do
  let this ← self
  if !this.active then
    assign fun s => { s with errorFlag := 1 }
    return 0
  if this.pinWriteLED ≠ 0 then digitalWrite this.pinWriteLED HIGH
  -- Reset error flag
  assign fun s => { s with errorFlag := 0 }
  -- Enter debug mode
  digitalWrite this.pinRST LOW
  cc_delay 200
  digitalWrite this.pinDC HIGH
  cc_delay 3
  digitalWrite this.pinDC LOW
  cc_delay 3
  digitalWrite this.pinDC HIGH
  cc_delay 3
  digitalWrite this.pinDC LOW
  cc_delay 200
  digitalWrite this.pinRST HIGH
  cc_delay 200
  -- We are now in debug mode
  assign fun s => { s with inDebugMode := true }
  if this.pinWriteLED ≠ 0 then digitalWrite this.pinWriteLED LOW
  -- Success
  return 0

/-- The `for (cnt = 8; cnt; cnt--)` loop of `write`; `data` is a `byte`. -/
def writeLoop (pinDD_O pinDC : Int) : Nat → Nat → M Unit
  | 0, _ => pure ()
  | cnt + 1, data => do
    -- First put data bit on bus
    if data &&& 0x80 ≠ 0 then
      digitalWrite pinDD_O HIGH
    else
      digitalWrite pinDD_O LOW
    -- Place clock on high (other end reads data)
    digitalWrite pinDC HIGH
    -- Shift & Delay
    let data := (data <<< 1) % 256
    cc_delay 2
    -- Place clock down
    digitalWrite pinDC LOW
    cc_delay 2
    writeLoop pinDD_O pinDC cnt data

/-- Source `CCDebugger::write`. -/
def write (data : Nat) : M Nat := do
  let this ← self
  if !this.active then
    assign fun s => { s with errorFlag := 1 }
    return 0
  if !this.inDebugMode then
    assign fun s => { s with errorFlag := 2 }
    return 0
  if this.pinWriteLED ≠ 0 then digitalWrite this.pinWriteLED HIGH
  -- Make sure DD is on output
  setDDDirection OUTPUT
  -- Sent bytes
  writeLoop this.pinDD_O this.pinDC 8 data
  if this.pinWriteLED ≠ 0 then digitalWrite this.pinWriteLED LOW
  return 0

/-- The `for (cnt = 8; cnt; cnt--)` loop inside the ready poll of `switchRead`. -/
def clockLoop (pinDC : Int) : Nat → M Unit
  | 0 => pure ()
  | cnt + 1 => do
    digitalWrite pinDC HIGH
    cc_delay 2
    digitalWrite pinDC LOW
    cc_delay 2
    clockLoop pinDC cnt

/-- The `while (digitalRead(pinDD_I) == HIGH)` loop of `switchRead`, run for at
most `bound` ready checks; returns `didWait`. -/
def pollLoop (din : Nat → Nat) (pinDD_I pinDC : Int) : Nat → Nat → M Nat
  | 0, _ => fun s => .spinning s
  | bound + 1, didWait => do
    let level ← digitalRead din pinDD_I
    if level = HIGH then
      -- Do 8 clock cycles
      clockLoop pinDC 8
      -- Let next function know that we did wait
      pollLoop din pinDD_I pinDC bound 1
    else
      return didWait

/-- Source `CCDebugger::switchRead`. -/
def switchRead (din : Nat → Nat) (bound : Nat) : M Nat := do
  let this ← self
  if !this.active then
    assign fun s => { s with errorFlag := 1 }
    return 0
  if !this.inDebugMode then
    assign fun s => { s with errorFlag := 2 }
    return 0
  if this.pinReadLED ≠ 0 then digitalWrite this.pinReadLED HIGH
  -- Switch to input
  setDDDirection INPUT
  -- Wait at least 83 ns before checking state t(dir_change)
  cc_delay 2
  -- Wait for DD to go LOW (Chip is READY)
  let didWait ← pollLoop din this.pinDD_I this.pinDC bound 0
  -- Wait t(sample_wait)
  if didWait ≠ 0 then cc_delay 2
  if this.pinReadLED ≠ 0 then digitalWrite this.pinReadLED LOW
  return 0

/-- Source `CCDebugger::switchWrite`. -/
def switchWrite : M Nat := do
  setDDDirection OUTPUT
  return 0

/-- The `for (cnt = 8; cnt; cnt--)` loop of `read`; returns `data`, a `byte`. -/
def readLoop (din : Nat → Nat) (pinDD_I pinDC : Int) : Nat → Nat → M Nat
  | 0, data => pure data
  | cnt + 1, data => do
    digitalWrite pinDC HIGH
    cc_delay 2
    -- Shift and read
    let data := (data <<< 1) % 256
    let level ← digitalRead din pinDD_I
    let data := if level = HIGH then data ||| 0x01 else data
    digitalWrite pinDC LOW
    cc_delay 2
    readLoop din pinDD_I pinDC cnt data

/-- Source `CCDebugger::read`. -/
def read (din : Nat → Nat) : M Nat := do
  let this ← self
  if !this.active then
    assign fun s => { s with errorFlag := 1 }
    return 0
  if this.pinReadLED ≠ 0 then digitalWrite this.pinReadLED HIGH
  -- Switch to input
  setDDDirection INPUT
  -- Send 8 clock pulses if we are HIGH
  let data ← readLoop din this.pinDD_I this.pinDC 8 0
  if this.pinReadLED ≠ 0 then digitalWrite this.pinReadLED LOW
  return data

/-! ## High level functions -/

/-- Source `CCDebugger::exit`. -/
def exit (din : Nat → Nat) (bound : Nat) : M Nat := do
  let this ← self
  if !this.active then
    assign fun s => { s with errorFlag := 1 }
    return 0
  if !this.inDebugMode then
    assign fun s => { s with errorFlag := 2 }
    return 0
  let _ ← write (0x48)
  let _ ← switchRead din bound
  let _bAns ← read din
  let _ ← switchWrite
  assign fun s => { s with inDebugMode := false }
  return 0

/-- Source `CCDebugger::getConfig`. -/
def getConfig (din : Nat → Nat) (bound : Nat) : M Nat := do
  let this ← self
  if !this.active then
    assign fun s => { s with errorFlag := 1 }
    return 0
  if !this.inDebugMode then
    assign fun s => { s with errorFlag := 2 }
    return 0
  let _ ← write (0x20)
  let _ ← switchRead din bound
  let bAns ← read din
  let _ ← switchWrite
  return bAns

/-- Source `CCDebugger::setConfig`. -/
def setConfig (din : Nat → Nat) (bound : Nat) (config : Nat) : M Nat := do
  let this ← self
  if !this.active then
    assign fun s => { s with errorFlag := 1 }
    return 0
  if !this.inDebugMode then
    assign fun s => { s with errorFlag := 2 }
    return 0
  let _ ← write (0x18)
  let _ ← write (config)
  let _ ← switchRead din bound
  let bAns ← read din
  let _ ← switchWrite
  return bAns

/-- Source `CCDebugger::exec(byte oc0)`. -/
def exec1 (din : Nat → Nat) (bound : Nat) (oc0 : Nat) : M Nat := do
  let this ← self
  if !this.active then
    assign fun s => { s with errorFlag := 1 }
    return 0
  if !this.inDebugMode then
    assign fun s => { s with errorFlag := 2 }
    return 0
  let _ ← write (0x51)
  let _ ← write (oc0)
  let _ ← switchRead din bound
  let bAns ← read din
  let _ ← switchWrite
  return bAns

/-- Source `CCDebugger::exec(byte oc0, byte oc1)`. -/
def exec2 (din : Nat → Nat) (bound : Nat) (oc0 oc1 : Nat) : M Nat := do
  let this ← self
  if !this.active then
    assign fun s => { s with errorFlag := 1 }
    return 0
  if !this.inDebugMode then
    assign fun s => { s with errorFlag := 2 }
    return 0
  let _ ← write (0x52)
  let _ ← write (oc0)
  let _ ← write (oc1)
  let _ ← switchRead din bound
  let bAns ← read din
  let _ ← switchWrite
  return bAns

/-- Source `CCDebugger::exec(byte oc0, byte oc1, byte oc2)`. -/
def exec3 (din : Nat → Nat) (bound : Nat) (oc0 oc1 oc2 : Nat) : M Nat := do
  let this ← self
  if !this.active then
    assign fun s => { s with errorFlag := 1 }
    return 0
  if !this.inDebugMode then
    assign fun s => { s with errorFlag := 2 }
    return 0
  let _ ← write (0x53)
  let _ ← write (oc0)
  let _ ← write (oc1)
  let _ ← write (oc2)
  let _ ← switchRead din bound
  let bAns ← read din
  let _ ← switchWrite
  return bAns

/-- Source `CCDebugger::execi(byte oc0, unsigned short c0)`. -/
def execi (din : Nat → Nat) (bound : Nat) (oc0 c0 : Nat) : M Nat := do
  let this ← self
  if !this.active then
    assign fun s => { s with errorFlag := 1 }
    return 0
  if !this.inDebugMode then
    assign fun s => { s with errorFlag := 2 }
    return 0
  let _ ← write (0x53)
  let _ ← write (oc0)
  let _ ← write ((c0 >>> 8) &&& 0xFF)
  let _ ← write (c0 &&& 0xFF)
  let _ ← switchRead din bound
  let bAns ← read din
  let _ ← switchWrite
  return bAns

/-- Source `CCDebugger::getChipID`; the result is an `unsigned short`. -/
def getChipID (din : Nat → Nat) (bound : Nat) : M Nat := do
  let this ← self
  if !this.active then
    assign fun s => { s with errorFlag := 1 }
    return 0
  if !this.inDebugMode then
    assign fun s => { s with errorFlag := 2 }
    return 0
  let _ ← write (0x68)
  let _ ← switchRead din bound
  let bRes ← read din
  let bAns := (bRes <<< 8) % 65536
  let bRes ← read din
  let bAns := bAns ||| bRes
  let _ ← switchWrite
  return bAns

/-- Source `CCDebugger::getPC`; the result is an `unsigned short`. -/
def getPC (din : Nat → Nat) (bound : Nat) : M Nat := do
  let this ← self
  if !this.active then
    assign fun s => { s with errorFlag := 1 }
    return 0
  if !this.inDebugMode then
    assign fun s => { s with errorFlag := 2 }
    return 0
  let _ ← write (0x28)
  let _ ← switchRead din bound
  let bRes ← read din
  let bAns := (bRes <<< 8) % 65536
  let bRes ← read din
  let bAns := bAns ||| bRes
  let _ ← switchWrite
  return bAns

/-- Source `CCDebugger::getStatus`. -/
def getStatus (din : Nat → Nat) (bound : Nat) : M Nat := do
  let this ← self
  if !this.active then
    assign fun s => { s with errorFlag := 1 }
    return 0
  if !this.inDebugMode then
    assign fun s => { s with errorFlag := 2 }
    return 0
  let _ ← write (0x30)
  let _ ← switchRead din bound
  let bAns ← read din
  let _ ← switchWrite
  return bAns

/-- Source `CCDebugger::step`. -/
def step (din : Nat → Nat) (bound : Nat) : M Nat := do
  let this ← self
  if !this.active then
    assign fun s => { s with errorFlag := 1 }
    return 0
  if !this.inDebugMode then
    assign fun s => { s with errorFlag := 2 }
    return 0
  let _ ← write (0x58)
  let _ ← switchRead din bound
  let bAns ← read din
  let _ ← switchWrite
  return bAns

/-- Source `CCDebugger::chipErase`. -/
def chipErase (din : Nat → Nat) (bound : Nat) : M Nat := do
  let this ← self
  if !this.active then
    assign fun s => { s with errorFlag := 1 }
    return 0
  if !this.inDebugMode then
    assign fun s => { s with errorFlag := 2 }
    return 0
  let _ ← write (0x10)
  let _ ← switchRead din bound
  let bAns ← read din
  let _ ← switchWrite
  return bAns

/-! ## Activation -/

/-- Source `CCDebugger::setActive`; the parameter `on` is named `enable` here. -/
def setActive (din : Nat → Nat) (bound : Nat) (enable : Bool) : M Unit := do
  -- Reset error flag
  assign fun s => { s with errorFlag := 0 }
  let this ← self
  -- Continue only if active
  if enable = this.active then
    return ()
  assign fun s => { s with active := enable }
  if enable then
    -- Prepare CC Pins
    pinMode this.pinDC OUTPUT
    pinMode this.pinDD_I INPUT
    pinMode this.pinDD_O OUTPUT
    pinMode this.pinRST OUTPUT
    digitalWrite this.pinDC LOW
    digitalWrite this.pinDD_I LOW
    digitalWrite this.pinDD_O LOW
    digitalWrite this.pinRST LOW
    -- Activate leds
    if this.pinReadLED ≠ 0 then
      pinMode this.pinReadLED OUTPUT
      digitalWrite this.pinReadLED LOW
    if this.pinWriteLED ≠ 0 then
      pinMode this.pinWriteLED OUTPUT
      digitalWrite this.pinWriteLED LOW
    -- Default direction is INPUT
    setDDDirection INPUT
  else
    -- Before deactivating, exit debug mode
    if this.inDebugMode then
      let _ ← exit din bound
    -- Put everything in inactive mode
    pinMode this.pinDC INPUT
    pinMode this.pinDD_I INPUT
    pinMode this.pinDD_O INPUT
    pinMode this.pinRST INPUT
    digitalWrite this.pinDC LOW
    digitalWrite this.pinDD_I LOW
    digitalWrite this.pinDD_O LOW
    digitalWrite this.pinRST LOW
    -- Deactivate leds
    if this.pinReadLED ≠ 0 then
      pinMode this.pinReadLED INPUT
      digitalWrite this.pinReadLED LOW
    if this.pinWriteLED ≠ 0 then
      pinMode this.pinWriteLED INPUT
      digitalWrite this.pinWriteLED LOW

end CCDebugger

/-! ## The public interface as data

`Call` enumerates the public member functions with their arguments, so that a
statement can range over all of them; `Call.run` dispatches to the member
function.  A `void` function returns 0 here. -/

inductive Call where
  | setLED (pinReadLED pinWriteLED : Int)
  | setActive (enable : Bool)
  | error
  | enter
  | write (data : Nat)
  | switchRead
  | switchWrite
  | read
  | exit
  | getConfig
  | setConfig (config : Nat)
  | exec1 (oc0 : Nat)
  | exec2 (oc0 oc1 : Nat)
  | exec3 (oc0 oc1 oc2 : Nat)
  | execi (oc0 c0 : Nat)
  | getChipID
  | getPC
  | getStatus
  | step
  | chipErase
deriving DecidableEq, Repr

def Call.run (din : Nat → Nat) (bound : Nat) : Call → M Nat
  | .setLED r w => do CCDebugger.setLED r w; return 0
  | .setActive enable => do CCDebugger.setActive din bound enable; return 0
  | .error => CCDebugger.error
  | .enter => CCDebugger.enter
  | .write data => CCDebugger.write data
  | .switchRead => CCDebugger.switchRead din bound
  | .switchWrite => CCDebugger.switchWrite
  | .read => CCDebugger.read din
  | .exit => CCDebugger.exit din bound
  | .getConfig => CCDebugger.getConfig din bound
  | .setConfig config => CCDebugger.setConfig din bound config
  | .exec1 oc0 => CCDebugger.exec1 din bound oc0
  | .exec2 oc0 oc1 => CCDebugger.exec2 din bound oc0 oc1
  | .exec3 oc0 oc1 oc2 => CCDebugger.exec3 din bound oc0 oc1 oc2
  | .execi oc0 c0 => CCDebugger.execi din bound oc0 c0
  | .getChipID => CCDebugger.getChipID din bound
  | .getPC => CCDebugger.getPC din bound
  | .getStatus => CCDebugger.getStatus din bound
  | .step => CCDebugger.step din bound
  | .chipErase => CCDebugger.chipErase din bound

/-- The debug transactions of the command catalog. -/
def Call.isCommand : Call → Bool
  | .exit | .getConfig | .setConfig _ | .exec1 _ | .exec2 _ _ | .exec3 _ _ _ | .execi _ _
  | .getChipID | .getPC | .getStatus | .step | .chipErase => true
  | _ => false

/-- The operations guarded on debug mode: the two guarded primitives and the
command catalog. -/
def Call.needsDebugMode : Call → Bool
  | .write _ | .switchRead => true
  | c => c.isCommand

/-! ## Descriptions of what appears on the lines

The functions of this section describe call records and the values they carry;
the theorems below compare them with what the member functions do. -/

/-- The calls `setDDDirection direction` makes from a state whose recorded
direction is `ddIsOutput`: none when the direction is already recorded. -/
def dirOps (pinDD_I pinDD_O : Int) (ddIsOutput direction : Nat) : List LineOp :=
  if direction = ddIsOutput then []
  else [LineOp.digitalWrite pinDD_I LOW,
        LineOp.pinMode pinDD_O (if direction ≠ 0 then OUTPUT else INPUT),
        LineOp.digitalWrite pinDD_O LOW]

/-- The call an indicator write makes: none when the indicator pin is 0. -/
def ledOps (pin : Int) (level : Nat) : List LineOp :=
  if pin ≠ 0 then [LineOp.digitalWrite pin level] else []

/-- The levels the loop of `write` puts on the data-out line, in order. -/
def writeLevels : Nat → Nat → List Nat
  | 0, _ => []
  | cnt + 1, data =>
    (if data &&& 0x80 ≠ 0 then HIGH else LOW) :: writeLevels cnt ((data <<< 1) % 256)

/-- One bit cell of a byte transfer: the data level, clock HIGH, delay, clock
LOW, delay. -/
def bitCell (pinDD_O pinDC : Int) (level : Nat) : List LineOp :=
  [LineOp.digitalWrite pinDD_O level, LineOp.digitalWrite pinDC HIGH, LineOp.cc_delay 2,
   LineOp.digitalWrite pinDC LOW, LineOp.cc_delay 2]

/-- The calls of a run of bit cells, one cell per level. -/
def cellOps (pinDD_O pinDC : Int) : List Nat → List LineOp
  | [] => []
  | level :: rest => bitCell pinDD_O pinDC level ++ cellOps pinDD_O pinDC rest

/-- The bits of a byte as line levels, bit 7 first. -/
def msbLevels (value : Nat) : List Nat :=
  [7, 6, 5, 4, 3, 2, 1, 0].map fun i => if value.testBit i then HIGH else LOW

/-- The byte the loop of `read` assembles from the samples `din k`,
`din (k+1)`, ... starting from the accumulator `data`. -/
def readValue (din : Nat → Nat) : Nat → Nat → Nat → Nat
  | 0, _, data => data
  | cnt + 1, k, data =>
    readValue din cnt (k + 1)
      (if din k = HIGH then ((data <<< 1) % 256) ||| 0x01 else (data <<< 1) % 256)

/-- The calls of the loop of `read`: per bit, clock HIGH, delay, one sample,
clock LOW, delay. -/
def sampleOps (din : Nat → Nat) (pinDD_I pinDC : Int) : Nat → Nat → List LineOp
  | 0, _ => []
  | cnt + 1, k =>
    [LineOp.digitalWrite pinDC HIGH, LineOp.cc_delay 2, LineOp.digitalRead pinDD_I (din k),
     LineOp.digitalWrite pinDC LOW, LineOp.cc_delay 2] ++ sampleOps din pinDD_I pinDC cnt (k + 1)

/-- The samples `din k`, `din (k+1)`, ..., `cnt` of them, in sampling order. -/
def samples (din : Nat → Nat) : Nat → Nat → List Nat
  | _, 0 => []
  | k, cnt + 1 => din k :: samples din (k + 1) cnt

/-- The value of a run of levels taken most-significant bit first: a HIGH
level is a 1 bit, any other level a 0 bit. -/
def levelsValue (levels : List Nat) : Nat :=
  levels.foldl (fun acc level => 2 * acc + (if level = HIGH then 1 else 0)) 0

/-- The calls of `cnt` clock cycles of a poll round. -/
def clockOps (pinDC : Int) : Nat → List LineOp
  | 0 => []
  | cnt + 1 =>
    [LineOp.digitalWrite pinDC HIGH, LineOp.cc_delay 2, LineOp.digitalWrite pinDC LOW,
     LineOp.cc_delay 2] ++ clockOps pinDC cnt

/-- The calls of the ready poll when the line reads HIGH on the first `k`
checks and `level` on the next: `k` rounds of one sample and eight clock
cycles, then the last sample. -/
def pollOps (pinDD_I pinDC : Int) (level : Nat) : Nat → List LineOp
  | 0 => [LineOp.digitalRead pinDD_I level]
  | k + 1 => LineOp.digitalRead pinDD_I HIGH :: (clockOps pinDC 8 ++ pollOps pinDD_I pinDC level k)

/-- The calls with which `setActive(false)` puts every line in the inactive
configuration. -/
def idleOps (s : CCDebugger) : List LineOp :=
  [LineOp.pinMode s.pinDC INPUT, LineOp.pinMode s.pinDD_I INPUT,
   LineOp.pinMode s.pinDD_O INPUT, LineOp.pinMode s.pinRST INPUT,
   LineOp.digitalWrite s.pinDC LOW, LineOp.digitalWrite s.pinDD_I LOW,
   LineOp.digitalWrite s.pinDD_O LOW, LineOp.digitalWrite s.pinRST LOW]
  ++ (if s.pinReadLED ≠ 0 then
        [LineOp.pinMode s.pinReadLED INPUT, LineOp.digitalWrite s.pinReadLED LOW] else [])
  ++ (if s.pinWriteLED ≠ 0 then
        [LineOp.pinMode s.pinWriteLED INPUT, LineOp.digitalWrite s.pinWriteLED LOW] else [])

/-- The calls with which `setActive(true)` prepares the lines, before it sets
the default direction. -/
def wakeOps (s : CCDebugger) : List LineOp :=
  [LineOp.pinMode s.pinDC OUTPUT, LineOp.pinMode s.pinDD_I INPUT,
   LineOp.pinMode s.pinDD_O OUTPUT, LineOp.pinMode s.pinRST OUTPUT,
   LineOp.digitalWrite s.pinDC LOW, LineOp.digitalWrite s.pinDD_I LOW,
   LineOp.digitalWrite s.pinDD_O LOW, LineOp.digitalWrite s.pinRST LOW]
  ++ (if s.pinReadLED ≠ 0 then
        [LineOp.pinMode s.pinReadLED OUTPUT, LineOp.digitalWrite s.pinReadLED LOW] else [])
  ++ (if s.pinWriteLED ≠ 0 then
        [LineOp.pinMode s.pinWriteLED OUTPUT, LineOp.digitalWrite s.pinWriteLED LOW] else [])

/-- What a receiver on the wire latches: the level last written to `dataOut`
at each `digitalWrite(clock, HIGH)`, in order; `level` is the level of
`dataOut` before the record starts. -/
def risingEdgeLevels (clock dataOut : Int) : Nat → List LineOp → List Nat
  | _, [] => []
  | level, LineOp.digitalWrite pin v :: rest =>
    if pin = clock then
      if v = HIGH then level :: risingEdgeLevels clock dataOut level rest
      else risingEdgeLevels clock dataOut level rest
    else if pin = dataOut then risingEdgeLevels clock dataOut v rest
    else risingEdgeLevels clock dataOut level rest
  | level, _ :: rest => risingEdgeLevels clock dataOut level rest

/-- The mode a pin is configured in after a record of calls: the mode of the
last `pinMode` on that pin, if any. -/
def pinModeOf (pin : Int) (log : List LineOp) : Option Nat :=
  log.foldl (fun mode op =>
    match op with
    | LineOp.pinMode p m => if p = pin then some m else mode
    | _ => mode) none

/-- The data-line direction invariant of the spec: the recorded direction is
output exactly when the data-out pin is configured as an OUTPUT. -/
def DirectionInv (s : CCDebugger) : Prop :=
  s.ddIsOutput ≠ 0 ↔ pinModeOf s.pinDD_O s.log = some OUTPUT

instance (s : CCDebugger) : Decidable (DirectionInv s) := by
  unfold DirectionInv; infer_instance

/-! ### Transactions (spec §4.3)

A transaction is a request (the command byte and its parameter bytes) and the
number of response bytes; it is run by writing the request bytes in order,
one `switchRead`, one `read` per response byte, one `switchWrite`. -/

structure Transaction where
  request : List Nat
  responseSize : Nat
deriving DecidableEq, Repr

/-- The catalog of spec §4.3: the request bytes and response size of each
command. -/
def Call.transaction : Call → Option Transaction
  | .exit => some ⟨[0x48], 1⟩
  | .getConfig => some ⟨[0x20], 1⟩
  | .setConfig config => some ⟨[0x18, config], 1⟩
  | .exec1 oc0 => some ⟨[0x51, oc0], 1⟩
  | .exec2 oc0 oc1 => some ⟨[0x52, oc0, oc1], 1⟩
  | .exec3 oc0 oc1 oc2 => some ⟨[0x53, oc0, oc1, oc2], 1⟩
  | .execi oc0 c0 => some ⟨[0x53, oc0, (c0 >>> 8) &&& 0xFF, c0 &&& 0xFF], 1⟩
  | .getChipID => some ⟨[0x68], 2⟩
  | .getPC => some ⟨[0x28], 2⟩
  | .getStatus => some ⟨[0x30], 1⟩
  | .step => some ⟨[0x58], 1⟩
  | .chipErase => some ⟨[0x10], 1⟩
  | _ => none

/-- Pass the bytes to `write`, in order. -/
def writeAll : List Nat → M Unit
  | [] => pure ()
  | b :: rest => do
    let _ ← CCDebugger.write b
    writeAll rest

/-- Call `read` `n` times and collect what it returned, in order. -/
def readAll (din : Nat → Nat) : Nat → M (List Nat)
  | 0 => pure []
  | n + 1 => do
    let r ← CCDebugger.read din
    let rest ← readAll din n
    return r :: rest

/-- The one shape all transactions share: the writes, one `switchRead`, the
reads, one `switchWrite`; returns the response bytes. -/
def transact (din : Nat → Nat) (bound : Nat) (t : Transaction) : M (List Nat) := do
  writeAll t.request
  let _ ← CCDebugger.switchRead din bound
  let response ← readAll din t.responseSize
  let _ ← CCDebugger.switchWrite
  return response

/-- What the session looks like once the command has returned: `exit` clears
the debug-mode flag, the other commands leave the session as the transaction
left it. -/
def Call.settle (c : Call) (s : CCDebugger) : CCDebugger :=
  if c = Call.exit then { s with inDebugMode := false } else s

/-- The response bytes of a transaction whose first response sample is sample
number `k`: byte `i` is assembled from samples `k + 8*i`, ..., `k + 8*i + 7`. -/
def responses (din : Nat → Nat) : Nat → Nat → List Nat
  | _, 0 => []
  | k, n + 1 => readValue din 8 k 0 :: responses din (k + 8) n

/-- What a command returns once its transaction has read the response bytes:
`exit` returns 0, `getChipID` and `getPC` combine two bytes into an
`unsigned short`, the other commands return the byte read. -/
def Call.response : Call → List Nat → Nat
  | .exit, _ => 0
  | .getChipID, rs => ((rs.getD 0 0 <<< 8) % 65536) ||| rs.getD 1 0
  | .getPC, rs => ((rs.getD 0 0 <<< 8) % 65536) ||| rs.getD 1 0
  | _, rs => rs.getD 0 0

/-! ### A concrete session and target, used to exhibit the statements below -/

/-- A debugger on pins RST 2, DC 3, DD_I 4, DD_O 5, constructed on storage
that held zeros. -/
def demoFresh : CCDebugger := CCDebugger.construct 2 3 4 5 ⟨false, 0, 0⟩

/-- The same debugger after `enter()`: active and in debug mode. -/
def demoSession : CCDebugger := (CCDebugger.enter demoFresh).state

/-- A target that is busy on the first ready check, ready on the second, then
sends the bytes 0x12 and 0x34, most-significant bit first. -/
def demoTarget : Nat → Nat := fun k =>
  [1, 0, 0, 0, 0, 1, 0, 0, 1, 0, 0, 0, 1, 1, 0, 1, 0, 0].getD k 0

/-! ### Descriptions used by the protocol-engine statements -/

/-- One bit cell of a byte read: clock HIGH, delay, one sample of data-in
(which read `level`), clock LOW, delay. -/
def sampleCell (pinDD_I pinDC : Int) (level : Nat) : List LineOp :=
  [LineOp.digitalWrite pinDC HIGH, LineOp.cc_delay 2, LineOp.digitalRead pinDD_I level,
   LineOp.digitalWrite pinDC LOW, LineOp.cc_delay 2]

/-- The calls of a run of read cells, one cell per sampled level. -/
def sampleCellOps (pinDD_I pinDC : Int) : List Nat → List LineOp
  | [] => []
  | level :: rest => sampleCell pinDD_I pinDC level ++ sampleCellOps pinDD_I pinDC rest

/-- The debug-mode entry handshake of spec §4.2: reset LOW, delay 200, two
clock pulses (HIGH, delay 3, LOW) separated by delay 3, delay 200 after the
second, reset HIGH, delay 200. -/
def enterOps (pinRST pinDC : Int) : List LineOp :=
  [LineOp.digitalWrite pinRST LOW, LineOp.cc_delay 200,
   LineOp.digitalWrite pinDC HIGH, LineOp.cc_delay 3,
   LineOp.digitalWrite pinDC LOW, LineOp.cc_delay 3,
   LineOp.digitalWrite pinDC HIGH, LineOp.cc_delay 3,
   LineOp.digitalWrite pinDC LOW, LineOp.cc_delay 200,
   LineOp.digitalWrite pinRST HIGH, LineOp.cc_delay 200]

/-- The number of data-in samples in a record of calls. -/
def countReads : List LineOp → Nat
  | [] => 0
  | LineOp.digitalRead _ _ :: rest => countReads rest + 1
  | _ :: rest => countReads rest

/-- The number of clock pulses in a record of calls: the number of
`digitalWrite(clock, HIGH)`. -/
def clockPulses (clock : Int) (log : List LineOp) : Nat :=
  log.count (LineOp.digitalWrite clock HIGH)

/-- The level a pin is left at by a record of calls: the level of the last
`digitalWrite` on that pin; `before` when the record has none. -/
def levelOf (pin : Int) (before : Nat) (log : List LineOp) : Nat :=
  log.foldl (fun level op =>
    match op with
    | LineOp.digitalWrite p v => if p = pin then v else level
    | _ => level) before

/-- The calls of `n` rounds of the ready poll on a line that reads HIGH: per
round one sample and eight clock cycles. -/
def busyOps (pinDD_I pinDC : Int) : Nat → List LineOp
  | 0 => []
  | n + 1 => LineOp.digitalRead pinDD_I HIGH :: (clockOps pinDC 8 ++ busyOps pinDD_I pinDC n)

/-- The guards a member function starts with: the operations guarded on debug
mode need `active` and `inDebugMode`, `enter` and `read` need `active`, the
others have no guard. -/
def Call.guard : Call → CCDebugger → Bool
  | .enter, s => s.active
  | .read, s => s.active
  | .setLED _ _, _ => true
  | .setActive _, _ => true
  | .error, _ => true
  | .switchWrite, _ => true
  | _, s => s.active && s.inDebugMode

/-- A target that is never ready: data-in reads HIGH on every sample. -/
def busyTarget : Nat → Nat := fun _ => HIGH

/-- The calls of `switchRead` on a target that is busy for `k` ready checks
and LOW on the next: the read indicator raised (when configured), the
direction switch to input, the settling delay, `k` poll rounds and the last
sample, the sample-wait delay unless `k = 0`, the indicator lowered. -/
def switchReadOps (s : CCDebugger) (k : Nat) : List LineOp :=
  ledOps s.pinReadLED HIGH
    ++ dirOps s.pinDD_I s.pinDD_O s.ddIsOutput INPUT
    ++ [LineOp.cc_delay 2]
    ++ pollOps s.pinDD_I s.pinDC LOW k
    ++ (if k = 0 then [] else [LineOp.cc_delay 2])
    ++ ledOps s.pinReadLED LOW

open CCDebugger

/-! # Theorems -/

/-! ## Running member functions

The rules below are proved through `Eq.trans` so that `simp` records each use
as a rewrite step. -/

@[simp] theorem pure_run {α : Type} (a : α) (s : CCDebugger) : (pure a : M α) s = .done a s := Eq.trans rfl rfl

@[simp] theorem bind_run {α β : Type} (m : M α) (f : α → M β) (s : CCDebugger) :
    (m >>= f) s = (m s).andThen f := Eq.trans rfl rfl

@[simp] theorem andThen_done {α β : Type} (a : α) (s : CCDebugger) (f : α → M β) :
    (Outcome.done a s).andThen f = f a s := Eq.trans rfl rfl

@[simp] theorem andThen_spinning {α β : Type} (s : CCDebugger) (f : α → M β) :
    (Outcome.spinning s : Outcome α).andThen f = .spinning s := Eq.trans rfl rfl

@[simp] theorem ite_run {α : Type} (c : Prop) [Decidable c] (m1 m2 : M α) (s : CCDebugger) :
    (if c then m1 else m2) s = if c then m1 s else m2 s := by
  split <;> rfl

@[simp] theorem self_run (s : CCDebugger) : self s = .done s s := Eq.trans rfl rfl

@[simp] theorem assign_run (f : CCDebugger → CCDebugger) (s : CCDebugger) :
    assign f s = .done () (f s) := Eq.trans rfl rfl

@[simp] theorem pinMode_run (pin : Int) (mode : Nat) (s : CCDebugger) :
    pinMode pin mode s = .done () { s with log := s.log ++ [LineOp.pinMode pin mode] } := Eq.trans rfl rfl

@[simp] theorem digitalWrite_run (pin : Int) (level : Nat) (s : CCDebugger) :
    digitalWrite pin level s
      = .done () { s with log := s.log ++ [LineOp.digitalWrite pin level] } := Eq.trans rfl rfl

@[simp] theorem cc_delay_run (d : Nat) (s : CCDebugger) :
    cc_delay d s = .done () { s with log := s.log ++ [LineOp.cc_delay d] } := Eq.trans rfl rfl

@[simp] theorem digitalRead_run (din : Nat → Nat) (pin : Int) (s : CCDebugger) :
    digitalRead din pin s = .done (din s.reads)
      { s with log := s.log ++ [LineOp.digitalRead pin (din s.reads)], reads := s.reads + 1 } :=
  Eq.trans rfl rfl

theorem setDDDirection_run (direction : Nat) (s : CCDebugger) :
    setDDDirection direction s = .done ()
      { s with ddIsOutput := direction,
               log := s.log ++ dirOps s.pinDD_I s.pinDD_O s.ddIsOutput direction } := by
  by_cases h : direction = s.ddIsOutput
  · subst h; simp [setDDDirection, dirOps]
  · by_cases h0 : direction = 0
    · subst h0; simp [setDDDirection, dirOps, h]
    · simp [setDDDirection, dirOps, h, h0]

theorem led_run (pin : Int) (level : Nat) (s : CCDebugger) :
    (if pin ≠ 0 then digitalWrite pin level else pure PUnit.unit) s
      = .done () { s with log := s.log ++ ledOps pin level } := by
  by_cases h : pin = 0 <;> simp [ledOps, h]

/-! ## The byte loops -/

theorem writeLoop_run (pinDD_O pinDC : Int) (cnt data : Nat) (s : CCDebugger) :
    writeLoop pinDD_O pinDC cnt data s = .done ()
      { s with log := s.log ++ cellOps pinDD_O pinDC (writeLevels cnt data) } := by
  induction cnt generalizing data s with
  | zero => simp [writeLoop, writeLevels, cellOps]
  | succ n ih =>
    by_cases hb : data &&& 0x80 = 0 <;>
      simp [writeLoop, writeLevels, cellOps, bitCell, ih, hb]

theorem write_run (data : Nat) (s : CCDebugger) (ha : s.active = true)
    (hd : s.inDebugMode = true) :
    write data s = .done 0
      { s with ddIsOutput := OUTPUT,
               log := s.log ++ (ledOps s.pinWriteLED HIGH
                 ++ dirOps s.pinDD_I s.pinDD_O s.ddIsOutput OUTPUT
                 ++ cellOps s.pinDD_O s.pinDC (writeLevels 8 data)
                 ++ ledOps s.pinWriteLED LOW) } := by
  by_cases hl : s.pinWriteLED = 0 <;>
    simp [write, ha, hd, setDDDirection_run, writeLoop_run, ledOps, hl]

theorem readLoop_run (din : Nat → Nat) (pinDD_I pinDC : Int) (cnt data : Nat) (s : CCDebugger) :
    readLoop din pinDD_I pinDC cnt data s = .done (readValue din cnt s.reads data)
      { s with log := s.log ++ sampleOps din pinDD_I pinDC cnt s.reads,
               reads := s.reads + cnt } := by
  induction cnt generalizing data s with
  | zero => simp [readLoop, readValue, sampleOps]
  | succ n ih =>
    simp [readLoop, readValue, sampleOps, ih]
    omega

theorem read_run (din : Nat → Nat) (s : CCDebugger) (ha : s.active = true) :
    CCDebugger.read din s = .done (readValue din 8 s.reads 0)
      { s with ddIsOutput := INPUT,
               log := s.log ++ (ledOps s.pinReadLED HIGH
                 ++ dirOps s.pinDD_I s.pinDD_O s.ddIsOutput INPUT
                 ++ sampleOps din s.pinDD_I s.pinDC 8 s.reads
                 ++ ledOps s.pinReadLED LOW),
               reads := s.reads + 8 } := by
  by_cases hl : s.pinReadLED = 0 <;>
    simp [CCDebugger.read, ha, setDDDirection_run, readLoop_run, ledOps, hl]

theorem switchWrite_run (s : CCDebugger) :
    switchWrite s = .done 0
      { s with ddIsOutput := OUTPUT,
               log := s.log ++ dirOps s.pinDD_I s.pinDD_O s.ddIsOutput OUTPUT } := by
  simp [switchWrite, setDDDirection_run]

theorem clockLoop_run (pinDC : Int) (cnt : Nat) (s : CCDebugger) :
    clockLoop pinDC cnt s = .done () { s with log := s.log ++ clockOps pinDC cnt } := by
  induction cnt generalizing s with
  | zero => simp [clockLoop, clockOps]
  | succ n ih => simp [clockLoop, clockOps, ih]

theorem pollLoop_ready (din : Nat → Nat) (pinDD_I pinDC : Int) (k : Nat) :
    ∀ (bound didWait : Nat) (s : CCDebugger), k < bound →
      (∀ j, j < k → din (s.reads + j) = HIGH) → din (s.reads + k) ≠ HIGH →
      pollLoop din pinDD_I pinDC bound didWait s
        = .done (if k = 0 then didWait else 1)
            { s with log := s.log ++ pollOps pinDD_I pinDC (din (s.reads + k)) k,
                     reads := s.reads + k + 1 } := by
  induction k with
  | zero =>
    intro bound didWait s hb _ hr
    obtain ⟨b, rfl⟩ : ∃ b, bound = b + 1 := ⟨bound - 1, by omega⟩
    simp at hr
    simp [pollLoop, pollOps, hr]
  | succ n ih =>
    intro bound didWait s hb hbusy hr
    obtain ⟨b, rfl⟩ : ∃ b, bound = b + 1 := ⟨bound - 1, by omega⟩
    have h0 : din s.reads = HIGH := by simpa using hbusy 0 (by omega)
    have hb1 : n < b := by omega
    simp only [pollLoop, bind_run, digitalRead_run, andThen_done, ite_run, h0, if_true, clockLoop_run]
    rw [ih b 1 _ hb1]
    · simp [pollOps, Nat.add_assoc, Nat.add_comm 1 n]
    · intro j hj
      have := hbusy (j + 1) (by omega)
      simpa [Nat.add_assoc, Nat.add_comm 1 j] using this
    · have := hr
      simpa [Nat.add_assoc, Nat.add_comm 1 n] using this

theorem switchRead_run (din : Nat → Nat) (bound k : Nat) (s : CCDebugger)
    (ha : s.active = true) (hd : s.inDebugMode = true) (hb : k < bound)
    (hbusy : ∀ j, j < k → din (s.reads + j) = HIGH) (hready : din (s.reads + k) ≠ HIGH) :
    switchRead din bound s = .done 0
      { s with ddIsOutput := INPUT,
               log := s.log ++ (ledOps s.pinReadLED HIGH
                 ++ dirOps s.pinDD_I s.pinDD_O s.ddIsOutput INPUT
                 ++ [LineOp.cc_delay 2]
                 ++ pollOps s.pinDD_I s.pinDC (din (s.reads + k)) k
                 ++ (if k = 0 then [] else [LineOp.cc_delay 2])
                 ++ ledOps s.pinReadLED LOW),
               reads := s.reads + k + 1 } := by
  have hp := fun (t : CCDebugger) (ht : t.reads = s.reads) =>
    pollLoop_ready din s.pinDD_I s.pinDC k bound 0 t hb (by simpa [ht] using hbusy)
      (by simpa [ht] using hready)
  by_cases hl : s.pinReadLED = 0 <;> by_cases hk : k = 0 <;>
    simp [switchRead, ha, hd, setDDDirection_run, hp, ledOps, hl, hk]

theorem foldl_levels_mod (levels : List Nat) (a : Nat) :
    (levels.foldl (fun acc level => 2 * acc + (if level = HIGH then 1 else 0)) a) % 256
      = (levels.foldl (fun acc level => 2 * acc + (if level = HIGH then 1 else 0)) (a % 256))
          % 256 := by
  induction levels generalizing a with
  | nil => simp
  | cons x xs ih =>
    simp only [List.foldl_cons]
    rw [ih (2 * a + _), ih (2 * (a % 256) + _)]
    congr 2
    omega

theorem shift_in_bit (acc : Nat) (h : acc < 256) :
    ((acc <<< 1) % 256) ||| 0x01 = (2 * acc + 1) % 256 ∧ (acc <<< 1) % 256 = (2 * acc) % 256 := by
  interval_cases acc <;> exact ⟨rfl, rfl⟩

theorem readValue_eq_foldl (din : Nat → Nat) (cnt : Nat) :
    ∀ (k acc : Nat), acc < 256 →
      readValue din cnt k acc
        = ((samples din k cnt).foldl
            (fun acc level => 2 * acc + (if level = HIGH then 1 else 0)) acc) % 256 := by
  induction cnt with
  | zero => intro k acc h; simp [readValue, samples, Nat.mod_eq_of_lt h]
  | succ n ih =>
    intro k acc h
    have hs := shift_in_bit acc h
    simp only [readValue, samples, List.foldl_cons]
    by_cases hb : din k = HIGH
    · simp only [hb, if_true]
      rw [hs.1, ih _ _ (Nat.mod_lt _ (by norm_num)), ← foldl_levels_mod]
    · simp only [hb, if_false]
      rw [hs.2, ih _ _ (Nat.mod_lt _ (by norm_num)), ← foldl_levels_mod]
      simp

theorem levelsValue_lt (levels : List Nat) (a : Nat) :
    levels.foldl (fun acc level => 2 * acc + (if level = HIGH then 1 else 0)) a
      < (a + 1) * 2 ^ levels.length := by
  induction levels generalizing a with
  | nil => simp
  | cons x xs ih =>
    simp only [List.foldl_cons, List.length_cons]
    refine lt_of_lt_of_le (ih _) ?_
    rw [pow_succ]
    have : 2 * a + (if x = HIGH then 1 else 0) + 1 ≤ (a + 1) * 2 := by split <;> omega
    calc (2 * a + (if x = HIGH then 1 else 0) + 1) * 2 ^ xs.length
        ≤ ((a + 1) * 2) * 2 ^ xs.length := Nat.mul_le_mul_right _ this
      _ = (a + 1) * (2 ^ xs.length * 2) := by ring

theorem samples_length (din : Nat → Nat) (k cnt : Nat) : (samples din k cnt).length = cnt := by
  induction cnt generalizing k with
  | zero => rfl
  | succ n ih => simp [samples, ih]

theorem readValue_eq_levelsValue (din : Nat → Nat) (k : Nat) :
    readValue din 8 k 0 = levelsValue (samples din k 8) := by
  rw [readValue_eq_foldl din 8 k 0 (by norm_num)]
  have := levelsValue_lt (samples din k 8) 0
  rw [samples_length] at this
  exact Nat.mod_eq_of_lt (by simpa [levelsValue] using this)

theorem levelsValue_writeLevels (x : Nat) (hx : x < 256) : levelsValue (writeLevels 8 x) = x := by
  interval_cases x <;> rfl

/-! ## Activation -/

theorem setActive_same_run (din : Nat → Nat) (bound : Nat) (enable : Bool) (s : CCDebugger)
    (h : enable = s.active) :
    setActive din bound enable s = .done () { s with errorFlag := 0 } := by
  simp [setActive, h]

theorem exit_inactive_run (din : Nat → Nat) (bound : Nat) (s : CCDebugger)
    (ha : s.active = false) :
    CCDebugger.exit din bound s = .done 0 { s with errorFlag := 1 } := by
  simp [CCDebugger.exit, ha]

theorem setActive_false_run (din : Nat → Nat) (bound : Nat) (s : CCDebugger)
    (ha : s.active = true) :
    setActive din bound false s = .done ()
      { s with active := false, errorFlag := if s.inDebugMode then 1 else 0,
               log := s.log ++ idleOps s } := by
  by_cases hr : s.pinReadLED = 0 <;> by_cases hw : s.pinWriteLED = 0 <;>
    cases hd : s.inDebugMode <;>
    simp [setActive, ha, hd, CCDebugger.exit, idleOps, hr, hw]

theorem setActive_true_run (din : Nat → Nat) (bound : Nat) (s : CCDebugger)
    (ha : s.active = false) :
    setActive din bound true s = .done ()
      { s with active := true, errorFlag := 0, ddIsOutput := INPUT,
               log := s.log ++ (wakeOps s ++ dirOps s.pinDD_I s.pinDD_O s.ddIsOutput INPUT) } := by
  by_cases hr : s.pinReadLED = 0 <;> by_cases hw : s.pinWriteLED = 0 <;>
    simp [setActive, ha, setDDDirection_run, wakeOps, hr, hw]

/-! ## What the wire carries -/

theorem risingEdgeLevels_append_quiet (clock dataOut : Int) (pre rest : List LineOp) :
    ∀ level, (∀ op ∈ pre, ∀ pin v, op = LineOp.digitalWrite pin v → pin ≠ clock ∨ v ≠ HIGH) →
      ∃ level1, risingEdgeLevels clock dataOut level (pre ++ rest)
        = risingEdgeLevels clock dataOut level1 rest := by
  induction pre with
  | nil => intro level _; exact ⟨level, rfl⟩
  | cons op ops ih =>
    intro level h
    have hq : ∀ op ∈ ops, ∀ pin v, op = LineOp.digitalWrite pin v → pin ≠ clock ∨ v ≠ HIGH :=
      fun o ho => h o (List.mem_cons_of_mem _ ho)
    cases op with
    | pinMode p m => simpa [risingEdgeLevels] using ih level hq
    | digitalRead p v => simpa [risingEdgeLevels] using ih level hq
    | cc_delay d => simpa [risingEdgeLevels] using ih level hq
    | digitalWrite p v =>
      have h0 := h (LineOp.digitalWrite p v) (List.mem_cons_self _ _) p v rfl
      simp only [List.cons_append, risingEdgeLevels]
      by_cases hp : p = clock
      · have hv : v ≠ HIGH := by
          rcases h0 with h0 | h0
          · exact absurd hp h0
          · exact h0
        simpa [hp, hv] using ih level hq
      · by_cases hdo : p = dataOut
        · subst hdo
          simpa [hp] using ih v hq
        · simpa [hp, hdo] using ih level hq

theorem risingEdgeLevels_cellOps (clock dataOut : Int) (hne : clock ≠ dataOut)
    (levels : List Nat) (rest : List LineOp) :
    ∀ level, ∃ level1, risingEdgeLevels clock dataOut level (cellOps dataOut clock levels ++ rest)
      = levels ++ risingEdgeLevels clock dataOut level1 rest := by
  induction levels with
  | nil => intro level; exact ⟨level, rfl⟩
  | cons l ls ih =>
    intro level
    obtain ⟨level1, h1⟩ := ih l
    refine ⟨level1, ?_⟩
    have hne2 : dataOut ≠ clock := fun h => hne h.symm
    simp [cellOps, bitCell, risingEdgeLevels, hne2, h1, HIGH, LOW]

theorem risingEdgeLevels_quiet (clock dataOut : Int) (ops : List LineOp) (level : Nat)
    (h : ∀ op ∈ ops, ∀ pin v, op = LineOp.digitalWrite pin v → pin ≠ clock ∨ v ≠ HIGH) :
    risingEdgeLevels clock dataOut level ops = [] := by
  obtain ⟨l1, h1⟩ := risingEdgeLevels_append_quiet clock dataOut ops [] level h
  simpa [risingEdgeLevels] using h1

/-- What a receiver latches from the calls of one `write`. -/
theorem risingEdgeLevels_write (s : CCDebugger) (data level : Nat)
    (hne : s.pinDC ≠ s.pinDD_O) (hled : s.pinWriteLED ≠ 0 → s.pinWriteLED ≠ s.pinDC) :
    risingEdgeLevels s.pinDC s.pinDD_O level
        (ledOps s.pinWriteLED HIGH ++ dirOps s.pinDD_I s.pinDD_O s.ddIsOutput OUTPUT
          ++ cellOps s.pinDD_O s.pinDC (writeLevels 8 data) ++ ledOps s.pinWriteLED LOW)
      = writeLevels 8 data := by
  rw [List.append_assoc, List.append_assoc]
  obtain ⟨l1, h1⟩ := risingEdgeLevels_append_quiet s.pinDC s.pinDD_O
    (ledOps s.pinWriteLED HIGH)
    (dirOps s.pinDD_I s.pinDD_O s.ddIsOutput OUTPUT
      ++ (cellOps s.pinDD_O s.pinDC (writeLevels 8 data) ++ ledOps s.pinWriteLED LOW)) level
    (by
      intro op hop pin v hv
      by_cases hl : s.pinWriteLED = 0
      · simp [ledOps, hl] at hop
      · simp only [ledOps, ne_eq, hl, not_false_eq_true, if_true, List.mem_singleton] at hop
        subst hop
        injection hv with hp _
        exact Or.inl (hp ▸ hled hl))
  obtain ⟨l2, h2⟩ := risingEdgeLevels_append_quiet s.pinDC s.pinDD_O
    (dirOps s.pinDD_I s.pinDD_O s.ddIsOutput OUTPUT)
    (cellOps s.pinDD_O s.pinDC (writeLevels 8 data) ++ ledOps s.pinWriteLED LOW) l1
    (by
      intro op hop pin v hv
      subst hv
      by_cases hdir : OUTPUT = s.ddIsOutput
      · simp [dirOps, hdir] at hop
      · simp only [dirOps, hdir, if_false, List.mem_cons, LineOp.digitalWrite.injEq,
          List.mem_singleton, reduceCtorEq, false_or, List.not_mem_nil, or_false] at hop
        rcases hop with h | h <;> exact Or.inr (by rw [h.2]; decide))
  obtain ⟨l3, h3⟩ := risingEdgeLevels_cellOps s.pinDC s.pinDD_O hne (writeLevels 8 data)
    (ledOps s.pinWriteLED LOW) l2
  rw [h1, h2, h3, risingEdgeLevels_quiet, List.append_nil]
  intro op hop pin v hv
  subst hv
  by_cases hl : s.pinWriteLED = 0
  · simp [ledOps, hl] at hop
  · simp only [ledOps, ne_eq, hl, not_false_eq_true, if_true, List.mem_singleton,
      LineOp.digitalWrite.injEq] at hop
    exact Or.inr (by rw [hop.2]; decide)

/-! ## Transactions -/

theorem andThen_assoc {α β γ : Type} (o : Outcome α) (f : α → M β) (g : β → M γ) :
    (o.andThen f).andThen g = o.andThen (fun a s => (f a s).andThen g) := by
  cases o <;> rfl

theorem run_eq_transact (din : Nat → Nat) (bound : Nat) (c : Call) (tx : Transaction)
    (htx : c.transaction = some tx) (s : CCDebugger)
    (ha : s.active = true) (hd : s.inDebugMode = true) :
    c.run din bound s
      = (transact din bound tx s).andThen
          (fun rs s1 => Outcome.done (c.response rs) (c.settle s1)) := by
  cases c <;> simp [Call.transaction] at htx <;> subst htx <;>
    simp [Call.run, CCDebugger.exit, getConfig, setConfig, exec1, exec2, exec3, execi,
      getChipID, getPC, getStatus, step, chipErase, ha, hd, transact, writeAll, readAll,
      andThen_assoc, Call.response, Call.settle] <;> rfl

theorem write_done (data : Nat) (s : CCDebugger) (ha : s.active = true)
    (hd : s.inDebugMode = true) :
    ∃ s1, CCDebugger.write data s = .done 0 s1 ∧ s1.active = true ∧ s1.inDebugMode = true
      ∧ s1.errorFlag = s.errorFlag ∧ s1.reads = s.reads :=
  ⟨_, write_run data s ha hd, ha, hd, rfl, rfl⟩

theorem switchRead_done (din : Nat → Nat) (bound k : Nat) (s : CCDebugger)
    (ha : s.active = true) (hd : s.inDebugMode = true) (hb : k < bound)
    (hbusy : ∀ j, j < k → din (s.reads + j) = HIGH) (hready : din (s.reads + k) ≠ HIGH) :
    ∃ s1, switchRead din bound s = .done 0 s1 ∧ s1.active = true ∧ s1.inDebugMode = true
      ∧ s1.errorFlag = s.errorFlag ∧ s1.reads = s.reads + k + 1 :=
  ⟨_, switchRead_run din bound k s ha hd hb hbusy hready, ha, hd, rfl, rfl⟩

theorem read_done (din : Nat → Nat) (s : CCDebugger) (ha : s.active = true) :
    ∃ s1, CCDebugger.read din s = .done (readValue din 8 s.reads 0) s1 ∧ s1.active = true
      ∧ s1.inDebugMode = s.inDebugMode ∧ s1.errorFlag = s.errorFlag
      ∧ s1.reads = s.reads + 8 :=
  ⟨_, read_run din s ha, ha, rfl, rfl, rfl⟩

theorem switchWrite_done (s : CCDebugger) :
    ∃ s1, switchWrite s = .done 0 s1 ∧ s1.active = s.active
      ∧ s1.inDebugMode = s.inDebugMode ∧ s1.errorFlag = s.errorFlag ∧ s1.reads = s.reads :=
  ⟨_, switchWrite_run s, rfl, rfl, rfl, rfl⟩

theorem writeAll_done (bytes : List Nat) :
    ∀ s : CCDebugger, s.active = true → s.inDebugMode = true →
      ∃ s1, writeAll bytes s = .done () s1 ∧ s1.active = true ∧ s1.inDebugMode = true
        ∧ s1.errorFlag = s.errorFlag ∧ s1.reads = s.reads := by
  induction bytes with
  | nil => intro s ha hd; exact ⟨s, rfl, ha, hd, rfl, rfl⟩
  | cons b rest ih =>
    intro s ha hd
    obtain ⟨s1, h1, ha1, hd1, he1, hr1⟩ := write_done b s ha hd
    obtain ⟨s2, h2, ha2, hd2, he2, hr2⟩ := ih s1 ha1 hd1
    exact ⟨s2, by simp only [writeAll, bind_run, h1, andThen_done, h2],
      ha2, hd2, he2.trans he1, hr2.trans hr1⟩

theorem readAll_done (din : Nat → Nat) (n : Nat) :
    ∀ s : CCDebugger, s.active = true →
      ∃ s1, readAll din n s = .done (responses din s.reads n) s1 ∧ s1.active = true
        ∧ s1.inDebugMode = s.inDebugMode ∧ s1.errorFlag = s.errorFlag
        ∧ s1.reads = s.reads + 8 * n := by
  induction n with
  | zero => intro s ha; exact ⟨s, rfl, ha, rfl, rfl, rfl⟩
  | succ m ih =>
    intro s ha
    obtain ⟨s1, h1, ha1, hd1, he1, hr1⟩ := read_done din s ha
    obtain ⟨s2, h2, ha2, hd2, he2, hr2⟩ := ih s1 ha1
    refine ⟨s2, by simp only [readAll, bind_run, h1, andThen_done, h2, responses, pure_run, hr1],
      ha2, hd2.trans hd1, he2.trans he1, ?_⟩
    rw [hr2, hr1]; omega

/-- A transaction on a target that is busy for `k` ready checks and then ready
returns, within any bound above `k`, the response bytes the target sent. -/
theorem transact_done (din : Nat → Nat) (bound k : Nat) (tx : Transaction) (s : CCDebugger)
    (ha : s.active = true) (hd : s.inDebugMode = true) (hb : k < bound)
    (hbusy : ∀ j, j < k → din (s.reads + j) = HIGH) (hready : din (s.reads + k) ≠ HIGH) :
    ∃ s1, transact din bound tx s = .done (responses din (s.reads + k + 1) tx.responseSize) s1
      ∧ s1.active = true ∧ s1.inDebugMode = true ∧ s1.errorFlag = s.errorFlag
      ∧ s1.reads = s.reads + k + 1 + 8 * tx.responseSize := by
  obtain ⟨s1, h1, ha1, hd1, he1, hr1⟩ := writeAll_done tx.request s ha hd
  obtain ⟨s2, h2, ha2, hd2, he2, hr2⟩ := switchRead_done din bound k s1 ha1 hd1 hb
    (by simpa [hr1] using hbusy) (by simpa [hr1] using hready)
  obtain ⟨s3, h3, ha3, hd3, he3, hr3⟩ := readAll_done din tx.responseSize s2 ha2
  obtain ⟨s4, h4, ha4, hd4, he4, hr4⟩ := switchWrite_done s3
  refine ⟨s4, by simp only [transact, bind_run, h1, h2, h3, h4, andThen_done, pure_run, hr2,
    hr1], ha4.trans ha3, hd4.trans (hd3.trans hd2), he4.trans (he3.trans (he2.trans he1)), ?_⟩
  rw [hr4, hr3, hr2, hr1]

/-- A transaction returns as many bytes as its response size. -/
theorem responses_length (din : Nat → Nat) (k n : Nat) : (responses din k n).length = n := by
  induction n generalizing k with
  | zero => rfl
  | succ m ih => simp [responses, ih]

/-! ## Bytes and levels -/

theorem writeLevels_eq_msbLevels (value : Nat) (hv : value < 256) :
    writeLevels 8 value = msbLevels value := by
  interval_cases value <;> rfl

theorem levelsValue_lt_256 (din : Nat → Nat) (k : Nat) : levelsValue (samples din k 8) < 256 := by
  have := levelsValue_lt (samples din k 8) 0
  rw [samples_length] at this
  simpa [levelsValue] using this

theorem compose_word (first second : Nat) (h1 : first < 256) (h2 : second < 256) :
    ((first <<< 8) % 65536) ||| second = 256 * first + second
      ∧ (first <<< 8) ||| second = 256 * first + second
      ∧ 256 * first + second ≤ 65535 := by
  have hs : first <<< 8 = 2 ^ 8 * first := by rw [Nat.shiftLeft_eq, Nat.mul_comm]
  have hor : 2 ^ 8 * first ||| second = 2 ^ 8 * first + second :=
    (Nat.mul_add_lt_is_or (by simpa using h2) first).symm
  have hm : (2 ^ 8 * first) % 65536 = 2 ^ 8 * first := Nat.mod_eq_of_lt (by omega)
  refine ⟨?_, ?_, by omega⟩
  · rw [hs, hm, hor]; norm_num
  · rw [hs, hor]; norm_num

/-! # The claims -/

/-- C1 (defect in the code).  Deactivating while in debug mode does not issue
the exit transaction: `setActive(false)` clears `active` before it calls
`exit()`, so `exit()` is rejected as inactive.  For every active state in debug
mode the call only records the idle configuration of the lines (starting with
`pinMode(pinDC, INPUT)`), leaves `inDebugMode` set, leaves `errorFlag = 1`, and
clocks no bit out: no byte 0x48 reaches the wire. -/
theorem setActive_false_in_debug_skips_exit (din : Nat → Nat) (bound : Nat) (s : CCDebugger)
    (ha : s.active = true) (hd : s.inDebugMode = true) :
    setActive din bound false s
        = .done () { s with active := false, errorFlag := 1, log := s.log ++ idleOps s }
      ∧ risingEdgeLevels s.pinDC s.pinDD_O LOW (idleOps s) = [] := by
  refine ⟨by simpa [hd] using setActive_false_run din bound s ha, ?_⟩
  by_cases hr : s.pinReadLED = 0 <;> by_cases hw : s.pinWriteLED = 0 <;>
    simp [idleOps, risingEdgeLevels, hr, hw, LOW, HIGH]

theorem setActive_false_in_debug_skips_exit_witness :
    demoSession.active = true ∧ demoSession.inDebugMode = true
      ∧ setActive demoTarget 4 false demoSession
          = .done () { demoSession with active := false, errorFlag := 1,
                                        log := demoSession.log ++ idleOps demoSession }
      ∧ risingEdgeLevels demoSession.pinDC demoSession.pinDD_O LOW (idleOps demoSession) = [] :=
  ⟨by decide, by decide,
    setActive_false_in_debug_skips_exit demoTarget 4 demoSession (by decide) (by decide)⟩

/-- C2.  Every catalog command issued on an inactive session, whatever
`inDebugMode` is and whatever its arguments are, returns 0 and changes nothing
but `errorFlag`, which becomes 1 (inactive): no call reaches the board, and
`active`, `inDebugMode` and `ddIsOutput` keep their values. -/
theorem command_rejected_when_inactive (din : Nat → Nat) (bound : Nat) (c : Call)
    (hc : c.isCommand = true) (s : CCDebugger) (ha : s.active = false) :
    c.run din bound s = .done 0 { s with errorFlag := 1 } := by
  cases c <;> simp [Call.isCommand] at hc <;>
    simp [Call.run, CCDebugger.exit, getConfig, setConfig, exec1, exec2, exec3, execi,
      getChipID, getPC, getStatus, step, chipErase, ha]

theorem command_rejected_when_inactive_witness :
    (Call.execi 0x90 0x1234).isCommand = true
      ∧ ({ demoSession with active := false } : CCDebugger).active = false
      ∧ (Call.execi 0x90 0x1234).run demoTarget 4 { demoSession with active := false }
          = .done 0 { demoSession with active := false, errorFlag := 1 } :=
  ⟨by decide, by decide,
    command_rejected_when_inactive demoTarget 4 (Call.execi 0x90 0x1234) (by decide)
      { demoSession with active := false } (by decide)⟩

/-- C3.  Every operation guarded on debug mode (`write`, `switchRead` and the
catalog commands), issued on an active session that is not in debug mode,
returns 0 and changes nothing but `errorFlag`, which becomes 2
(notInDebugMode): no call reaches the board, so neither the clock nor the
data-out line is written, and `active`, `inDebugMode` and `ddIsOutput` keep
their values. -/
theorem guarded_call_rejected_outside_debug_mode (din : Nat → Nat) (bound : Nat) (c : Call)
    (hc : c.needsDebugMode = true) (s : CCDebugger)
    (ha : s.active = true) (hd : s.inDebugMode = false) :
    c.run din bound s = .done 0 { s with errorFlag := 2 } := by
  cases c <;> simp [Call.needsDebugMode, Call.isCommand] at hc <;>
    simp [Call.run, CCDebugger.write, switchRead, CCDebugger.exit, getConfig, setConfig,
      exec1, exec2, exec3, execi, getChipID, getPC, getStatus, step, chipErase, ha, hd]

theorem guarded_call_rejected_outside_debug_mode_witness :
    (Call.write 0xA5).needsDebugMode = true
      ∧ demoFresh.active = true ∧ demoFresh.inDebugMode = false
      ∧ (Call.write 0xA5).run demoTarget 4 demoFresh
          = .done 0 { demoFresh with errorFlag := 2 } :=
  ⟨by decide, by decide, by decide,
    guarded_call_rejected_outside_debug_mode demoTarget 4 (Call.write 0xA5) (by decide)
      demoFresh (by decide) (by decide)⟩

/-- C4.  Byte round trip under loopback.  For every byte `x`, take the levels a
receiver latches from data-out at the rising clock edges of `write(x)` (session
active and in debug mode, clock and data-out on different pins, the write
indicator not on the clock pin): there are exactly 8 of them, and if the next 8
data-in samples of an active session are these levels in the same order, then
`read()` returns `x`. -/
theorem write_read_round_trip (x : Nat) (hx : x < 256) (s t : CCDebugger) (din : Nat → Nat)
    (ha : s.active = true) (hd : s.inDebugMode = true)
    (hne : s.pinDC ≠ s.pinDD_O) (hled : s.pinWriteLED ≠ 0 → s.pinWriteLED ≠ s.pinDC)
    (hta : t.active = true)
    (hloop : samples din t.reads 8
      = risingEdgeLevels s.pinDC s.pinDD_O LOW
          ((CCDebugger.write x s).state.log.drop s.log.length)) :
    (risingEdgeLevels s.pinDC s.pinDD_O LOW
        ((CCDebugger.write x s).state.log.drop s.log.length)).length = 8
      ∧ (CCDebugger.read din t).value = some x := by
  have hw : risingEdgeLevels s.pinDC s.pinDD_O LOW
      ((CCDebugger.write x s).state.log.drop s.log.length) = writeLevels 8 x := by
    rw [write_run x s ha hd]
    simp only [Outcome.state, List.drop_left]
    exact risingEdgeLevels_write s x LOW hne hled
  rw [hw] at hloop ⊢
  refine ⟨by rw [← hloop, samples_length], ?_⟩
  rw [read_run din t hta]
  simp only [Outcome.value]
  rw [readValue_eq_levelsValue, hloop, levelsValue_writeLevels x hx]

theorem write_read_round_trip_witness :
    (0xA5 : Nat) < 256 ∧ demoSession.active = true ∧ demoSession.inDebugMode = true
      ∧ (CCDebugger.read (fun k => [1, 0, 1, 0, 0, 1, 0, 1].getD k 0) demoSession).value
          = some 0xA5 :=
  ⟨by decide, by decide, by decide,
    (write_read_round_trip 0xA5 (by decide) demoSession demoSession
      (fun k => [1, 0, 1, 0, 0, 1, 0, 1].getD k 0) (by decide) (by decide) (by decide)
      (by decide) (by decide) (by decide)).2⟩

/-- C5.  Every catalog command issued while active and in debug mode, on a
target that is busy for `k` ready checks and then ready, runs exactly its
transaction of the catalog and returns: the request bytes of the catalog are
passed to `write` in order, followed by one `switchRead`, one `read` per
response byte and one `switchWrite`; the command ends in the state the
transaction ends in (`exit` also clears the debug-mode flag), and a command
with a 1-byte response other than `exit` returns the byte that `read`
produced. -/
theorem command_runs_its_transaction (din : Nat → Nat) (bound k : Nat) (c : Call)
    (tx : Transaction) (htx : c.transaction = some tx) (s : CCDebugger)
    (ha : s.active = true) (hd : s.inDebugMode = true) (hb : k < bound)
    (hbusy : ∀ j, j < k → din (s.reads + j) = HIGH) (hready : din (s.reads + k) ≠ HIGH) :
    ∃ rs s1, transact din bound tx s = .done rs s1
      ∧ rs.length = tx.responseSize
      ∧ c.run din bound s = .done (c.response rs) (c.settle s1)
      ∧ (tx.responseSize = 1 → c ≠ Call.exit → rs = [c.response rs]) := by
  obtain ⟨s1, h1, -, -, -, -⟩ := transact_done din bound k tx s ha hd hb hbusy hready
  refine ⟨_, s1, h1, responses_length _ _ _, ?_, ?_⟩
  · rw [run_eq_transact din bound c tx htx s ha hd, h1, andThen_done]
  · intro hsz hne
    rw [hsz]
    cases c <;> simp [Call.transaction] at htx <;> subst htx <;>
      first
        | exact absurd rfl hne
        | exact absurd hsz (by decide)
        | simp [responses, Call.response]

theorem command_runs_its_transaction_witness :
    (Call.execi 0x90 0x1234).transaction = some ⟨[0x53, 0x90, 0x12, 0x34], 1⟩
      ∧ demoSession.active = true ∧ demoSession.inDebugMode = true
      ∧ demoTarget (demoSession.reads + 1) ≠ HIGH
      ∧ ∃ rs s1, transact demoTarget 4 ⟨[0x53, 0x90, 0x12, 0x34], 1⟩ demoSession = .done rs s1
        ∧ rs.length = 1
        ∧ (Call.execi 0x90 0x1234).run demoTarget 4 demoSession
            = .done ((Call.execi 0x90 0x1234).response rs) ((Call.execi 0x90 0x1234).settle s1)
        ∧ ((1 : Nat) = 1 → Call.execi 0x90 0x1234 ≠ Call.exit
            → rs = [(Call.execi 0x90 0x1234).response rs]) :=
  ⟨by decide, by decide, by decide, by decide,
    command_runs_its_transaction demoTarget 4 1 (Call.execi 0x90 0x1234)
      ⟨[0x53, 0x90, 0x12, 0x34], 1⟩ (by decide) demoSession (by decide) (by decide)
      (by decide) (by decide) (by decide)⟩

/-- C6.  `getChipID` and `getPC`, issued while active and in debug mode on a
target that is busy for `k` ready checks and then sends the bytes `first` and
`second` (each most-significant bit first), return the 16-bit value
`(first << 8) | second`, which is `256 * first + second` and lies in
0..65535. -/
theorem getChipID_getPC_compose (din : Nat → Nat) (bound k first second : Nat)
    (s : CCDebugger) (ha : s.active = true) (hd : s.inDebugMode = true) (hb : k < bound)
    (hbusy : ∀ j, j < k → din (s.reads + j) = HIGH) (hready : din (s.reads + k) ≠ HIGH)
    (h1 : levelsValue (samples din (s.reads + k + 1) 8) = first)
    (h2 : levelsValue (samples din (s.reads + k + 9) 8) = second) :
    (getChipID din bound s).value = some ((first <<< 8) ||| second)
      ∧ (getPC din bound s).value = some ((first <<< 8) ||| second)
      ∧ (first <<< 8) ||| second = 256 * first + second
      ∧ 256 * first + second ≤ 65535 := by
  have hf : first < 256 := h1 ▸ levelsValue_lt_256 din _
  have hs : second < 256 := h2 ▸ levelsValue_lt_256 din _
  obtain ⟨hw1, hw2, hw3⟩ := compose_word first second hf hs
  have hrs : responses din (s.reads + k + 1) 2 = [first, second] := by
    simp only [responses, readValue_eq_levelsValue, h1]
    rw [show s.reads + k + 1 + 8 = s.reads + k + 9 by omega, h2]
  obtain ⟨s1, ht1, -⟩ := transact_done din bound k ⟨[0x68], 2⟩ s ha hd hb hbusy hready
  obtain ⟨s2, ht2, -⟩ := transact_done din bound k ⟨[0x28], 2⟩ s ha hd hb hbusy hready
  have e1 := run_eq_transact din bound Call.getChipID _ rfl s ha hd
  have e2 := run_eq_transact din bound Call.getPC _ rfl s ha hd
  simp only [Call.run] at e1 e2
  rw [ht1, andThen_done, hrs] at e1
  rw [ht2, andThen_done, hrs] at e2
  refine ⟨?_, ?_, hw2, hw3⟩
  · rw [e1]; simp [Outcome.value, Call.response, hw1, hw2]
  · rw [e2]; simp [Outcome.value, Call.response, hw1, hw2]

theorem getChipID_getPC_compose_witness :
    demoSession.active = true ∧ demoSession.inDebugMode = true
      ∧ levelsValue (samples demoTarget (demoSession.reads + 1 + 1) 8) = 0x12
      ∧ levelsValue (samples demoTarget (demoSession.reads + 1 + 9) 8) = 0x34
      ∧ (getChipID demoTarget 4 demoSession).value = some ((0x12 <<< 8) ||| 0x34)
      ∧ (getPC demoTarget 4 demoSession).value = some ((0x12 <<< 8) ||| 0x34)
      ∧ (0x12 <<< 8) ||| 0x34 = 256 * 0x12 + 0x34
      ∧ 256 * 0x12 + 0x34 ≤ 65535 :=
  ⟨by decide, by decide, by decide, by decide,
    getChipID_getPC_compose demoTarget 4 1 0x12 0x34 demoSession (by decide) (by decide)
      (by decide) (by decide) (by decide) (by decide) (by decide)⟩

/-- C7 (as amended).  `exit()` issued while active and in debug mode, on a
target that is busy for `k` ready checks and then sends a status byte, reads
that status byte in its transaction (request 0x48, 1 response byte) and
discards it: the call returns 0 whatever the status byte is, and leaves the
session as the transaction left it with the debug-mode flag cleared. -/
theorem exit_returns_zero (din : Nat → Nat) (bound k status : Nat) (s : CCDebugger)
    (ha : s.active = true) (hd : s.inDebugMode = true) (hb : k < bound)
    (hbusy : ∀ j, j < k → din (s.reads + j) = HIGH) (hready : din (s.reads + k) ≠ HIGH)
    (hstatus : levelsValue (samples din (s.reads + k + 1) 8) = status) :
    ∃ s1, transact din bound ⟨[0x48], 1⟩ s = .done [status] s1
      ∧ CCDebugger.exit din bound s = .done 0 { s1 with inDebugMode := false } := by
  obtain ⟨s1, ht1, -⟩ := transact_done din bound k ⟨[0x48], 1⟩ s ha hd hb hbusy hready
  have hrs : responses din (s.reads + k + 1) 1 = [status] := by
    simp only [responses, readValue_eq_levelsValue, hstatus]
  have e1 := run_eq_transact din bound Call.exit _ rfl s ha hd
  simp only [Call.run] at e1
  rw [ht1, andThen_done] at e1
  rw [hrs] at ht1
  exact ⟨s1, ht1, by rw [e1]; simp [Call.response, Call.settle]⟩

theorem exit_returns_zero_witness :
    demoSession.active = true ∧ demoSession.inDebugMode = true
      ∧ levelsValue (samples demoTarget (demoSession.reads + 1 + 1) 8) = 0x12
      ∧ ∃ s1, transact demoTarget 4 ⟨[0x48], 1⟩ demoSession = .done [0x12] s1
        ∧ CCDebugger.exit demoTarget 4 demoSession = .done 0 { s1 with inDebugMode := false } :=
  ⟨by decide, by decide, by decide,
    exit_returns_zero demoTarget 4 1 0x12 demoSession (by decide) (by decide) (by decide)
      (by decide) (by decide) (by decide)⟩

/-- C7 (counterexample).  On the demo session (active, in debug mode) the
target answers opcode 0x48 with the status byte 0x12, and `exit()` returns 0,
not 0x12. -/
theorem exit_status_not_returned :
    (transact demoTarget 4 ⟨[0x48], 1⟩ demoSession).value = some [0x12]
      ∧ (CCDebugger.exit demoTarget 4 demoSession).value = some 0
      ∧ (CCDebugger.exit demoTarget 4 demoSession).value ≠ some 0x12 := by
  obtain ⟨s1, ht1, -⟩ := transact_done demoTarget 4 1 ⟨[0x48], 1⟩ demoSession
    (by decide) (by decide) (by decide) (by decide) (by decide)
  have hrs : responses demoTarget (demoSession.reads + 1 + 1) 1 = [0x12] := by decide
  have e1 := run_eq_transact demoTarget 4 Call.exit _ rfl demoSession (by decide) (by decide)
  simp only [Call.run] at e1
  rw [ht1, andThen_done] at e1
  simp only [Transaction.responseSize] at ht1
  rw [hrs] at ht1
  rw [ht1, e1]
  simp [Outcome.value, Call.response]

theorem construct_eq (pinRST pinDC pinDD_I pinDD_O : Int) (u : Uninit) :
    construct pinRST pinDC pinDD_I pinDD_O u =
      { pinRST := pinRST, pinDC := pinDC, pinDD_I := pinDD_I, pinDD_O := pinDD_O,
        pinReadLED := 0, pinWriteLED := 0, active := true, inDebugMode := u.inDebugMode,
        errorFlag := u.errorFlag, ddIsOutput := INPUT,
        log := [LineOp.pinMode pinDC OUTPUT, LineOp.pinMode pinDD_I INPUT,
                LineOp.pinMode pinDD_O OUTPUT, LineOp.pinMode pinRST OUTPUT,
                LineOp.digitalWrite pinDC LOW, LineOp.digitalWrite pinDD_I LOW,
                LineOp.digitalWrite pinDD_O LOW, LineOp.digitalWrite pinRST LOW]
               ++ dirOps pinDD_I pinDD_O u.ddIsOutput INPUT,
        reads := 0 } := by
  simp [construct, init, raw, setDDDirection_run, Outcome.state]

theorem pinModeOf_append_quiet (pin : Int) (ops : List LineOp)
    (h : ∀ op ∈ ops, ∀ p m, op ≠ LineOp.pinMode p m) (log : List LineOp) :
    pinModeOf pin (log ++ ops) = pinModeOf pin log := by
  simp only [pinModeOf, List.foldl_append]
  generalize List.foldl _ none log = acc
  induction ops generalizing acc with
  | nil => rfl
  | cons op rest ih =>
    have hr : ∀ o ∈ rest, ∀ p m, o ≠ LineOp.pinMode p m :=
      fun o ho => h o (List.mem_cons_of_mem _ ho)
    have h0 := h op (List.mem_cons_self _ _)
    cases op with
    | pinMode p m => exact absurd rfl (h0 p m)
    | digitalWrite p v => simpa using ih hr acc
    | digitalRead p v => simpa using ih hr acc
    | cc_delay d => simpa using ih hr acc

theorem sampleOps_quiet (din : Nat → Nat) (pinDD_I pinDC : Int) (cnt : Nat) :
    ∀ k, ∀ op ∈ sampleOps din pinDD_I pinDC cnt k, ∀ p m, op ≠ LineOp.pinMode p m := by
  induction cnt with
  | zero => intro k op hop; simp [sampleOps] at hop
  | succ n ih =>
    intro k op hop p m
    simp only [sampleOps, List.cons_append, List.nil_append, List.mem_cons] at hop
    rcases hop with h | h | h | h | h | h
    · rw [h]; exact fun hc => by cases hc
    · rw [h]; exact fun hc => by cases hc
    · rw [h]; exact fun hc => by cases hc
    · rw [h]; exact fun hc => by cases hc
    · rw [h]; exact fun hc => by cases hc
    · exact ih (k + 1) op h p m

theorem ledOps_quiet (pin : Int) (level : Nat) :
    ∀ op ∈ ledOps pin level, ∀ p m, op ≠ LineOp.pinMode p m := by
  intro op hop p m
  by_cases hl : pin = 0
  · simp [ledOps, hl] at hop
  · simp only [ledOps, ne_eq, hl, not_false_eq_true, if_true, List.mem_singleton] at hop
    rw [hop]; exact fun hc => by cases hc

/-- After the calls with which `setActive(true)` prepares the lines, the
data-out pin is configured as an OUTPUT, whatever the pin assignment. -/
theorem pinModeOf_append_wakeOps (s : CCDebugger) (log : List LineOp) :
    pinModeOf s.pinDD_O (log ++ wakeOps s) = some OUTPUT := by
  by_cases hr : s.pinReadLED = 0 <;> by_cases hw : s.pinWriteLED = 0 <;>
    simp only [pinModeOf, wakeOps, hr, hw, ne_eq, not_true_eq_false, not_false_eq_true,
      if_false, if_true, List.foldl_append, List.foldl_cons, List.foldl_nil, List.append_nil,
      List.cons_append, List.nil_append] <;>
    repeat (first | rfl | split)

theorem setActive_false_done (din : Nat → Nat) (bound : Nat) (s : CCDebugger)
    (ha : s.active = true) :
    ∃ s1, setActive din bound false s = .done () s1 ∧ s1.active = false
      ∧ s1.inDebugMode = s.inDebugMode ∧ s1.ddIsOutput = s.ddIsOutput
      ∧ s1.errorFlag = (if s.inDebugMode then 1 else 0) ∧ s1.reads = s.reads :=
  ⟨_, setActive_false_run din bound s ha, rfl, rfl, rfl, rfl, rfl⟩

theorem setActive_true_done (din : Nat → Nat) (bound : Nat) (s : CCDebugger)
    (ha : s.active = false) :
    ∃ s2, setActive din bound true s = .done () s2 ∧ s2.active = true
      ∧ s2.inDebugMode = s.inDebugMode ∧ s2.ddIsOutput = INPUT ∧ s2.errorFlag = 0
      ∧ s2.reads = s.reads
      ∧ (s.ddIsOutput = INPUT → pinModeOf s2.pinDD_O s2.log = some OUTPUT) := by
  refine ⟨_, setActive_true_run din bound s ha, rfl, rfl, rfl, rfl, rfl, ?_⟩
  intro hdir
  show pinModeOf s.pinDD_O (s.log ++ (wakeOps s ++ dirOps s.pinDD_I s.pinDD_O s.ddIsOutput INPUT))
    = some OUTPUT
  rw [hdir]
  simp only [dirOps, if_true, List.append_nil]
  exact pinModeOf_append_wakeOps s s.log

/-- A `read()` on an active session whose recorded direction is input leaves
the configuration of the data-out pin as it found it. -/
theorem read_keeps_pinMode (din : Nat → Nat) (s : CCDebugger) (ha : s.active = true)
    (hdir : s.ddIsOutput = INPUT) :
    ∃ r s3, CCDebugger.read din s = .done r s3 ∧ s3.reads = s.reads + 8
      ∧ s3.log = s.log ++ (ledOps s.pinReadLED HIGH ++ sampleOps din s.pinDD_I s.pinDC 8 s.reads
          ++ ledOps s.pinReadLED LOW)
      ∧ pinModeOf s3.pinDD_O s3.log = pinModeOf s.pinDD_O s.log := by
  have hlog : s.log ++ (ledOps s.pinReadLED HIGH ++ dirOps s.pinDD_I s.pinDD_O s.ddIsOutput INPUT
      ++ sampleOps din s.pinDD_I s.pinDC 8 s.reads ++ ledOps s.pinReadLED LOW)
      = s.log ++ (ledOps s.pinReadLED HIGH ++ sampleOps din s.pinDD_I s.pinDC 8 s.reads
          ++ ledOps s.pinReadLED LOW) := by
    rw [hdir]; simp [dirOps]
  refine ⟨_, _, read_run din s ha, rfl, hlog, ?_⟩
  show pinModeOf s.pinDD_O (s.log ++ _) = _
  rw [hlog, ← List.append_assoc, ← List.append_assoc,
    pinModeOf_append_quiet _ _ (ledOps_quiet _ _),
    pinModeOf_append_quiet _ _ (sampleOps_quiet din _ _ 8 _),
    pinModeOf_append_quiet _ _ (ledOps_quiet _ _)]

/-- C8 (defect in the code).  The data-line direction invariant does not hold
in every reachable state.  For every pin assignment and whatever the
constructor found in the members it does not assign, the calls
constructor, `setActive(false)`, `setActive(true)` reach an active state whose
recorded direction is input while the data-out pin is configured as an OUTPUT:
`setActive(true)` sets the pin to OUTPUT and then `setDDDirection(INPUT)`
returns early because the recorded direction already is input.  A `read()`
issued there takes its 8 samples of data-in without reconfiguring the pin, so
it samples while the data-out pin is configured to drive the line. -/
theorem direction_invariant_broken_by_reactivation (pinRST pinDC pinDD_I pinDD_O : Int)
    (u : Uninit) (din : Nat → Nat) (bound : Nat) :
    ∃ s1 s2, setActive din bound false (construct pinRST pinDC pinDD_I pinDD_O u) = .done () s1
      ∧ setActive din bound true s1 = .done () s2
      ∧ s2.active = true ∧ s2.ddIsOutput = INPUT
      ∧ pinModeOf s2.pinDD_O s2.log = some OUTPUT
      ∧ ¬ DirectionInv s2
      ∧ ∃ r s3, CCDebugger.read din s2 = .done r s3 ∧ s3.reads = s2.reads + 8
        ∧ s3.log = s2.log ++ (ledOps s2.pinReadLED HIGH
            ++ sampleOps din s2.pinDD_I s2.pinDC 8 s2.reads ++ ledOps s2.pinReadLED LOW)
        ∧ pinModeOf s3.pinDD_O s3.log = some OUTPUT := by
  have hca : (construct pinRST pinDC pinDD_I pinDD_O u).active = true := by rw [construct_eq]
  have hcd : (construct pinRST pinDC pinDD_I pinDD_O u).ddIsOutput = INPUT := by
    rw [construct_eq]
  obtain ⟨s1, h1, ha1, -, hd1, -, -⟩ := setActive_false_done din bound _ hca
  obtain ⟨s2, h2, ha2, -, hd2, -, -, hm2⟩ := setActive_true_done din bound s1 ha1
  have hmode := hm2 (hd1.trans hcd)
  obtain ⟨r, s3, h3, hr3, hl3, hm3⟩ := read_keeps_pinMode din s2 ha2 hd2
  refine ⟨s1, s2, h1, h2, ha2, hd2, hmode, ?_, r, s3, h3, hr3, hl3, hm3.trans hmode⟩
  intro hinv
  exact hinv.2 hmode hd2

theorem settle_errorFlag (c : Call) (s : CCDebugger) : (c.settle s).errorFlag = s.errorFlag := by
  unfold Call.settle; split <;> rfl

/-- C9 (defect in the code).  Re-activation does not land in
Active/OutOfDebug when the session was deactivated in debug mode: because the
exit transaction of `setActive(false)` is skipped, `inDebugMode` stays set, so
after `setActive(false)`, `setActive(true)` the session is active and still
flagged in debug mode, and a catalog command issued next without `enter()` is
not rejected: on a target that is busy for `k` ready checks and then ready it
runs its transaction and returns the response, with `errorFlag = 0`. -/
theorem reactivation_stays_in_debug_mode (din : Nat → Nat) (bound k : Nat) (s : CCDebugger)
    (ha : s.active = true) (hd : s.inDebugMode = true) (c : Call) (tx : Transaction)
    (htx : c.transaction = some tx) (hb : k < bound)
    (hbusy : ∀ j, j < k → din (s.reads + j) = HIGH) (hready : din (s.reads + k) ≠ HIGH) :
    ∃ s1 s2, setActive din bound false s = .done () s1 ∧ s1.active = false
      ∧ setActive din bound true s1 = .done () s2 ∧ s2.active = true ∧ s2.inDebugMode = true
      ∧ ∃ s3, c.run din bound s2
          = .done (c.response (responses din (s.reads + k + 1) tx.responseSize)) s3
        ∧ s3.errorFlag = 0 := by
  obtain ⟨s1, h1, ha1, hd1, -, -, hr1⟩ := setActive_false_done din bound s ha
  obtain ⟨s2, h2, ha2, hd2, -, he2, hr2, -⟩ := setActive_true_done din bound s1 ha1
  have hd2' : s2.inDebugMode = true := hd2.trans (hd1.trans hd)
  have hreads : s2.reads = s.reads := hr2.trans hr1
  obtain ⟨s3, h3, -, -, he3, -⟩ := transact_done din bound k tx s2 ha2 hd2' hb
    (by simpa [hreads] using hbusy) (by simpa [hreads] using hready)
  refine ⟨s1, s2, h1, ha1, h2, ha2, hd2', c.settle s3, ?_, ?_⟩
  · rw [run_eq_transact din bound c tx htx s2 ha2 hd2', h3, andThen_done, hreads]
  · rw [settle_errorFlag, he3, he2]

theorem reactivation_stays_in_debug_mode_witness :
    demoSession.active = true ∧ demoSession.inDebugMode = true
      ∧ ∃ s1 s2, setActive demoTarget 4 false demoSession = .done () s1 ∧ s1.active = false
        ∧ setActive demoTarget 4 true s1 = .done () s2 ∧ s2.active = true
        ∧ s2.inDebugMode = true
        ∧ ∃ s3, Call.getStatus.run demoTarget 4 s2
            = .done (Call.getStatus.response (responses demoTarget (demoSession.reads + 1 + 1) 1))
                s3
          ∧ s3.errorFlag = 0 :=
  ⟨by decide, by decide,
    reactivation_stays_in_debug_mode demoTarget 4 1 demoSession (by decide) (by decide)
      Call.getStatus ⟨[0x30], 1⟩ (by decide) (by decide) (by decide) (by decide)⟩

/-- C10.  For every byte `value`, `write(value)` issued while active and in
debug mode returns 0 and records exactly: the write indicator raised (when
configured), the data line made an output (the three calls of
`setDDDirection(OUTPUT)`, none when the direction is already recorded as
output), then 8 bit cells for bits 7 down to 0 of `value`, each cell being
data-out set to the bit (HIGH iff the bit is 1), clock HIGH, delay, clock LOW,
delay, then the indicator lowered.  With clock and data-out on different pins
and the indicator not on the clock pin, the levels a receiver latches at the
rising clock edges are the bits of `value` most-significant first: exactly 8
rising edges. -/
theorem write_emits_msb_first_cells (value : Nat) (hv : value < 256) (s : CCDebugger)
    (ha : s.active = true) (hd : s.inDebugMode = true) :
    CCDebugger.write value s = .done 0
        { s with ddIsOutput := OUTPUT,
                 log := s.log ++ (ledOps s.pinWriteLED HIGH
                   ++ dirOps s.pinDD_I s.pinDD_O s.ddIsOutput OUTPUT
                   ++ cellOps s.pinDD_O s.pinDC (msbLevels value)
                   ++ ledOps s.pinWriteLED LOW) }
      ∧ (s.pinDC ≠ s.pinDD_O → (s.pinWriteLED ≠ 0 → s.pinWriteLED ≠ s.pinDC) →
          risingEdgeLevels s.pinDC s.pinDD_O LOW
              ((CCDebugger.write value s).state.log.drop s.log.length)
            = msbLevels value) := by
  have hw := write_run value s ha hd
  rw [writeLevels_eq_msbLevels value hv] at hw
  refine ⟨hw, fun hne hled => ?_⟩
  rw [hw]
  simp only [Outcome.state, List.drop_left]
  rw [← writeLevels_eq_msbLevels value hv]
  exact risingEdgeLevels_write s value LOW hne hled

theorem write_emits_msb_first_cells_witness :
    (0xA5 : Nat) < 256 ∧ demoSession.active = true ∧ demoSession.inDebugMode = true
      ∧ CCDebugger.write 0xA5 demoSession = .done 0
          { demoSession with
              ddIsOutput := OUTPUT,
              log := demoSession.log ++ (ledOps demoSession.pinWriteLED HIGH
                ++ dirOps demoSession.pinDD_I demoSession.pinDD_O demoSession.ddIsOutput OUTPUT
                ++ cellOps demoSession.pinDD_O demoSession.pinDC (msbLevels 0xA5)
                ++ ledOps demoSession.pinWriteLED LOW) }
      ∧ msbLevels 0xA5 = [1, 0, 1, 0, 0, 1, 0, 1] :=
  ⟨by decide, by decide, by decide,
    (write_emits_msb_first_cells 0xA5 (by decide) demoSession (by decide) (by decide)).1,
    by decide⟩

/-! ## Entering debug mode, indicators, the error flag -/

theorem enter_run (s : CCDebugger) (ha : s.active = true) :
    enter s = .done 0
      { s with inDebugMode := true, errorFlag := 0,
               log := s.log ++ (ledOps s.pinWriteLED HIGH ++ enterOps s.pinRST s.pinDC
                 ++ ledOps s.pinWriteLED LOW) } := by
  by_cases hl : s.pinWriteLED = 0 <;> simp [enter, ha, ledOps, enterOps, hl]

theorem setLED_run (pinReadLED pinWriteLED : Int) (s : CCDebugger) :
    setLED pinReadLED pinWriteLED s = .done ()
      { s with pinReadLED := pinReadLED, pinWriteLED := pinWriteLED,
               log := s.log
                 ++ ((if pinReadLED ≠ 0 then
                        [LineOp.pinMode pinWriteLED OUTPUT, LineOp.digitalWrite pinWriteLED LOW]
                      else [])
                   ++ (if pinWriteLED ≠ 0 then
                        [LineOp.pinMode pinWriteLED OUTPUT, LineOp.digitalWrite pinWriteLED LOW]
                      else [])) } := by
  by_cases hr : pinReadLED = 0 <;> by_cases hw : pinWriteLED = 0 <;>
    simp [setLED, hr, hw]

theorem error_run (s : CCDebugger) : CCDebugger.error s = .done s.errorFlag s := by
  simp [CCDebugger.error]

theorem sampleOps_eq_cells (din : Nat → Nat) (pinDD_I pinDC : Int) (cnt : Nat) :
    ∀ k, sampleOps din pinDD_I pinDC cnt k = sampleCellOps pinDD_I pinDC (samples din k cnt) := by
  induction cnt with
  | zero => intro k; rfl
  | succ n ih => intro k; simp only [sampleOps, samples, sampleCellOps, sampleCell, ih]

theorem bit_level (b : Nat) (h : b ≤ 1) : (if b = HIGH then 1 else 0) = b := by
  interval_cases b <;> rfl

/-- C11.  For every sequence of 8 data-in samples `b7, ..., b0` (in sampling
order, each 0 or 1), `read()` issued while active makes the data line an input
(the calls of `setDDDirection(INPUT)`, none when the direction is already
recorded as input), then runs exactly 8 cells, each being clock HIGH, delay,
one sample, clock LOW, delay, and returns `sum of b_i * 2^i`: the first sample
is the most-significant bit and no sample is lost. -/
theorem read_assembles_msb_first (din : Nat → Nat) (s : CCDebugger) (ha : s.active = true)
    (b7 b6 b5 b4 b3 b2 b1 b0 : Nat)
    (h7 : b7 ≤ 1) (h6 : b6 ≤ 1) (h5 : b5 ≤ 1) (h4 : b4 ≤ 1)
    (h3 : b3 ≤ 1) (h2 : b2 ≤ 1) (h1 : b1 ≤ 1) (h0 : b0 ≤ 1)
    (hs : samples din s.reads 8 = [b7, b6, b5, b4, b3, b2, b1, b0]) :
    CCDebugger.read din s
      = .done (128 * b7 + 64 * b6 + 32 * b5 + 16 * b4 + 8 * b3 + 4 * b2 + 2 * b1 + b0)
          { s with ddIsOutput := INPUT,
                   log := s.log ++ (ledOps s.pinReadLED HIGH
                     ++ dirOps s.pinDD_I s.pinDD_O s.ddIsOutput INPUT
                     ++ sampleCellOps s.pinDD_I s.pinDC [b7, b6, b5, b4, b3, b2, b1, b0]
                     ++ ledOps s.pinReadLED LOW),
                   reads := s.reads + 8 } := by
  have hv : readValue din 8 s.reads 0
      = 128 * b7 + 64 * b6 + 32 * b5 + 16 * b4 + 8 * b3 + 4 * b2 + 2 * b1 + b0 := by
    rw [readValue_eq_levelsValue, hs]
    simp only [levelsValue, List.foldl_cons, List.foldl_nil, bit_level _ h7, bit_level _ h6,
      bit_level _ h5, bit_level _ h4, bit_level _ h3, bit_level _ h2, bit_level _ h1,
      bit_level _ h0]
    omega
  rw [read_run din s ha, hv, sampleOps_eq_cells, hs]

theorem read_assembles_msb_first_witness :
    demoSession.active = true
      ∧ samples demoTarget demoSession.reads 8 = [1, 0, 0, 0, 0, 1, 0, 0]
      ∧ CCDebugger.read demoTarget demoSession
        = .done (128 * 1 + 64 * 0 + 32 * 0 + 16 * 0 + 8 * 0 + 4 * 1 + 2 * 0 + 0)
            { demoSession with
                ddIsOutput := INPUT,
                log := demoSession.log ++ (ledOps demoSession.pinReadLED HIGH
                  ++ dirOps demoSession.pinDD_I demoSession.pinDD_O demoSession.ddIsOutput INPUT
                  ++ sampleCellOps demoSession.pinDD_I demoSession.pinDC [1, 0, 0, 0, 0, 1, 0, 0]
                  ++ ledOps demoSession.pinReadLED LOW),
                reads := demoSession.reads + 8 } :=
  ⟨by decide, by decide,
    read_assembles_msb_first demoTarget demoSession (by decide) 1 0 0 0 0 1 0 0
      (by decide) (by decide) (by decide) (by decide) (by decide) (by decide) (by decide)
      (by decide) (by decide)⟩

/-- C12.  For every active state, `enter()` returns 0 and records exactly the
handshake reset LOW, delay 200, clock HIGH, delay 3, clock LOW, delay 3, clock
HIGH, delay 3, clock LOW, delay 200, reset HIGH, delay 200, between the
raising and the lowering of the write indicator (when configured); it sets
`inDebugMode`, sets `errorFlag` to 0 (none) and leaves `ddIsOutput` and every
other member as they were.  The handshake consists of delays and of writes to
the reset and clock pins only: no data pin is touched. -/
theorem enter_emits_handshake (s : CCDebugger) (ha : s.active = true) :
    enter s = .done 0
        { s with inDebugMode := true, errorFlag := 0,
                 log := s.log ++ (ledOps s.pinWriteLED HIGH ++ enterOps s.pinRST s.pinDC
                   ++ ledOps s.pinWriteLED LOW) }
      ∧ ∀ op ∈ enterOps s.pinRST s.pinDC,
          (∃ d, op = LineOp.cc_delay d) ∨ (∃ v, op = LineOp.digitalWrite s.pinRST v)
            ∨ (∃ v, op = LineOp.digitalWrite s.pinDC v) := by
  refine ⟨enter_run s ha, ?_⟩
  · intro op hop
    simp only [enterOps, List.mem_cons, List.mem_singleton, List.not_mem_nil, or_false] at hop
    rcases hop with h | h | h | h | h | h | h | h | h | h | h | h <;> subst h <;> simp

theorem enter_emits_handshake_witness :
    demoFresh.active = true
      ∧ enter demoFresh = .done 0
        { demoFresh with
            inDebugMode := true, errorFlag := 0,
            log := demoFresh.log ++ (ledOps demoFresh.pinWriteLED HIGH
              ++ enterOps demoFresh.pinRST demoFresh.pinDC
              ++ ledOps demoFresh.pinWriteLED LOW) } :=
  ⟨by decide, (enter_emits_handshake demoFresh (by decide)).1⟩

/-- C13.  For every opcode `oc` and immediate `c`, from every state and for
every target, `execi(oc, c)` is `exec(oc, (c >> 8) & 0xFF, c & 0xFF)`: the same
outcome, that is the same record of calls, the same final state and the same
return value.  The two bytes sent after the opcode are the high byte and then
the low byte of the 16-bit immediate, under command byte 0x53. -/
theorem execi_eq_exec3 (din : Nat → Nat) (bound oc c : Nat) (s : CCDebugger) :
    execi din bound oc c s = exec3 din bound oc ((c >>> 8) &&& 0xFF) (c &&& 0xFF) s
      ∧ (Call.execi oc c).transaction
          = (Call.exec3 oc ((c >>> 8) &&& 0xFF) (c &&& 0xFF)).transaction
      ∧ (Call.execi oc c).transaction
          = some ⟨[0x53, oc, (c % 65536) / 256, c % 256], 1⟩ := by
  have hhi : (c >>> 8) &&& 0xFF = (c % 65536) / 256 := by
    rw [Nat.shiftRight_eq_div_pow, show (0xFF : Nat) = 2 ^ 8 - 1 by norm_num,
      Nat.and_pow_two_sub_one_eq_mod]
    omega
  have hlo : c &&& 0xFF = c % 256 := by
    rw [show (0xFF : Nat) = 2 ^ 8 - 1 by norm_num, Nat.and_pow_two_sub_one_eq_mod]
  refine ⟨rfl, rfl, ?_⟩
  simp only [Call.transaction, hhi, hlo]

/-- C14 (defect in the code).  `switchWrite` does not obey the failure
semantics of the other protocol-engine operations: it has no guard on `active`.
On every inactive state whose recorded direction is not output it returns 0
without touching `errorFlag` and reconfigures the data line: it writes data-in
LOW, sets the data-out pin to OUTPUT and writes it LOW, and records the
direction as output. -/
theorem switchWrite_unguarded (s : CCDebugger) (_ha : s.active = false)
    (hdir : s.ddIsOutput ≠ OUTPUT) :
    switchWrite s = .done 0
      { s with ddIsOutput := OUTPUT,
               log := s.log ++ [LineOp.digitalWrite s.pinDD_I LOW,
                                LineOp.pinMode s.pinDD_O OUTPUT,
                                LineOp.digitalWrite s.pinDD_O LOW] } := by
  have hne : ¬ OUTPUT = s.ddIsOutput := fun h => hdir h.symm
  rw [switchWrite_run]
  simp only [dirOps, if_neg hne]
  rfl

theorem switchWrite_unguarded_witness :
    ({ demoFresh with active := false } : CCDebugger).active = false
      ∧ ({ demoFresh with active := false } : CCDebugger).ddIsOutput ≠ OUTPUT
      ∧ switchWrite { demoFresh with active := false } = .done 0
          { demoFresh with
              active := false, ddIsOutput := OUTPUT,
              log := demoFresh.log ++ [LineOp.digitalWrite 4 LOW, LineOp.pinMode 5 OUTPUT,
                                       LineOp.digitalWrite 5 LOW] } :=
  ⟨by decide, by decide,
    switchWrite_unguarded { demoFresh with active := false } (by decide) (by decide)⟩

/-! ## Counting samples and clock pulses -/

theorem countReads_append (a b : List LineOp) :
    countReads (a ++ b) = countReads a + countReads b := by
  induction a with
  | nil => simp [countReads]
  | cons op rest ih =>
    cases op <;> simp only [List.cons_append, countReads, List.append_eq, ih]
    omega

theorem countReads_ledOps (pin : Int) (level : Nat) : countReads (ledOps pin level) = 0 := by
  by_cases h : pin = 0 <;> simp [ledOps, h, countReads]

theorem countReads_dirOps (pinDD_I pinDD_O : Int) (d0 d : Nat) :
    countReads (dirOps pinDD_I pinDD_O d0 d) = 0 := by
  by_cases h : d = d0 <;> simp [dirOps, h, countReads]

theorem countReads_clockOps (pinDC : Int) (cnt : Nat) : countReads (clockOps pinDC cnt) = 0 := by
  induction cnt with
  | zero => rfl
  | succ n ih => simp [clockOps, countReads, ih]

theorem countReads_pollOps (pinDD_I pinDC : Int) (level k : Nat) :
    countReads (pollOps pinDD_I pinDC level k) = k + 1 := by
  induction k with
  | zero => rfl
  | succ n ih => simp [pollOps, countReads, countReads_append, countReads_clockOps, ih]

theorem clockPulses_append (clock : Int) (a b : List LineOp) :
    clockPulses clock (a ++ b) = clockPulses clock a + clockPulses clock b := by
  simp [clockPulses, List.count_append]

theorem clockPulses_clockOps (pinDC : Int) (cnt : Nat) :
    clockPulses pinDC (clockOps pinDC cnt) = cnt := by
  induction cnt with
  | zero => rfl
  | succ n ih =>
    have ih' : List.count (LineOp.digitalWrite pinDC HIGH) (clockOps pinDC n) = n := ih
    have hlh : LOW ≠ HIGH := by decide
    simp [clockPulses, clockOps, List.count_cons, ih', hlh]

theorem clockPulses_pollOps (pinDD_I pinDC : Int) (level k : Nat) :
    clockPulses pinDC (pollOps pinDD_I pinDC level k) = 8 * k := by
  induction k with
  | zero => simp [pollOps, clockPulses]
  | succ n ih =>
    have h8 := clockPulses_clockOps pinDC 8
    simp only [clockPulses] at ih h8
    simp only [pollOps, clockPulses, List.count_cons, List.count_append, ih, h8]
    simp
    omega

theorem clockPulses_busyOps (pinDD_I pinDC : Int) (n : Nat) :
    clockPulses pinDC (busyOps pinDD_I pinDC n) = 8 * n := by
  induction n with
  | zero => simp [busyOps, clockPulses]
  | succ m ih =>
    have h8 := clockPulses_clockOps pinDC 8
    simp only [clockPulses] at ih h8
    simp only [busyOps, clockPulses, List.count_cons, List.count_append, ih, h8]
    simp
    omega

theorem countReads_busyOps (pinDD_I pinDC : Int) (n : Nat) :
    countReads (busyOps pinDD_I pinDC n) = n := by
  induction n with
  | zero => rfl
  | succ m ih => simp [busyOps, countReads, countReads_append, countReads_clockOps, ih]

theorem clockPulses_ledOps (clock pin : Int) (level : Nat)
    (h : pin ≠ 0 → pin ≠ clock ∨ level ≠ HIGH) : clockPulses clock (ledOps pin level) = 0 := by
  by_cases hl : pin = 0
  · simp [ledOps, hl, clockPulses]
  · rcases h hl with h1 | h1 <;> simp [ledOps, hl, clockPulses, List.count_cons, h1]

theorem clockPulses_dirOps (clock pinDD_I pinDD_O : Int) (d0 d : Nat) :
    clockPulses clock (dirOps pinDD_I pinDD_O d0 d) = 0 := by
  have hlh : LOW ≠ HIGH := by decide
  by_cases h : d = d0 <;> simp [dirOps, h, clockPulses, List.count_cons, hlh]

theorem levelOf_append (pin : Int) (before : Nat) (a b : List LineOp) :
    levelOf pin before (a ++ b) = levelOf pin (levelOf pin before a) b := by
  simp [levelOf, List.foldl_append]

theorem levelOf_stays_low (pin : Int) (ops : List LineOp)
    (h : ∀ op ∈ ops, ∀ p v, op = LineOp.digitalWrite p v → p ≠ pin ∨ v = LOW) :
    levelOf pin LOW ops = LOW := by
  induction ops with
  | nil => rfl
  | cons op rest ih =>
    have hr : ∀ o ∈ rest, ∀ p v, o = LineOp.digitalWrite p v → p ≠ pin ∨ v = LOW :=
      fun o ho => h o (List.mem_cons_of_mem _ ho)
    have ih' := ih hr
    simp only [levelOf] at ih' ⊢
    cases op with
    | pinMode p m => simpa using ih'
    | digitalRead p v => simpa using ih'
    | cc_delay d => simpa using ih'
    | digitalWrite p v =>
      rcases h _ (List.mem_cons_self _ _) p v rfl with h1 | h1
      · simpa [h1] using ih'
      · subst h1
        by_cases hp : p = pin <;> simpa [hp] using ih'

theorem levelOf_clockOps (pinDC : Int) (before : Nat) (cnt : Nat) (h : before = LOW) :
    levelOf pinDC before (clockOps pinDC cnt) = LOW := by
  subst h
  induction cnt with
  | zero => rfl
  | succ n ih =>
    simp only [levelOf] at ih ⊢
    simpa [clockOps] using ih

theorem levelOf_pollOps (pinDD_I pinDC : Int) (level k : Nat) :
    levelOf pinDC LOW (pollOps pinDD_I pinDC level k) = LOW := by
  induction k with
  | zero => rfl
  | succ n ih =>
    have h8 := levelOf_clockOps pinDC LOW 8 rfl
    show levelOf pinDC LOW ([LineOp.digitalRead pinDD_I HIGH]
      ++ (clockOps pinDC 8 ++ pollOps pinDD_I pinDC level n)) = LOW
    rw [levelOf_append, levelOf_append, show levelOf pinDC LOW [LineOp.digitalRead pinDD_I HIGH]
      = LOW from rfl, h8, ih]

/-- C15.  For every `k`, if data-in reads HIGH on the first `k` ready checks
and LOW on check `k+1`, `switchRead()` issued while active and in debug mode
(within any bound above `k`) returns 0 with the direction recorded as input,
and records exactly: the direction switch to input, the settling delay, `k`
poll rounds of one sample and eight clock cycles, the last sample, and the
sample-wait delay if and only if `k > 0` (between the raising and lowering of
the read indicator, when configured).  That is `k+1` data-in samples and, with
the indicator not on the clock pin, `8*k` clock pulses, and a clock that was
LOW before the call is LOW after it. -/
theorem switchRead_polls_until_ready (din : Nat → Nat) (bound k : Nat) (s : CCDebugger)
    (ha : s.active = true) (hd : s.inDebugMode = true) (hb : k < bound)
    (hbusy : ∀ j, j < k → din (s.reads + j) = HIGH) (hready : din (s.reads + k) = LOW)
    (hled : s.pinReadLED ≠ 0 → s.pinReadLED ≠ s.pinDC) :
    switchRead din bound s = .done 0
        { s with ddIsOutput := INPUT, log := s.log ++ switchReadOps s k,
                 reads := s.reads + k + 1 }
      ∧ countReads (switchReadOps s k) = k + 1
      ∧ clockPulses s.pinDC (switchReadOps s k) = 8 * k
      ∧ levelOf s.pinDC LOW (switchReadOps s k) = LOW := by
  have hnh : din (s.reads + k) ≠ HIGH := by rw [hready]; decide
  refine ⟨?_, ?_, ?_, ?_⟩
  · rw [switchRead_run din bound k s ha hd hb hbusy hnh, hready]
    rfl
  · simp only [switchReadOps, countReads_append, countReads_ledOps, countReads_dirOps,
      countReads_pollOps]
    split <;> simp [countReads]
  · simp only [switchReadOps, clockPulses_append, clockPulses_dirOps, clockPulses_pollOps,
      clockPulses_ledOps s.pinDC s.pinReadLED HIGH (fun h => Or.inl (hled h)),
      clockPulses_ledOps s.pinDC s.pinReadLED LOW (fun _ => Or.inr (by decide))]
    split <;> simp [clockPulses]
  · have h1 : levelOf s.pinDC LOW (ledOps s.pinReadLED HIGH) = LOW :=
      levelOf_stays_low _ _ (by
        intro op hop p v hv
        by_cases hl : s.pinReadLED = 0
        · simp [ledOps, hl] at hop
        · simp only [ledOps, ne_eq, hl, not_false_eq_true, if_true, List.mem_singleton] at hop
          rw [hop] at hv
          injection hv with hp _
          exact Or.inl (hp ▸ hled hl))
    have h2 : levelOf s.pinDC LOW (dirOps s.pinDD_I s.pinDD_O s.ddIsOutput INPUT) = LOW :=
      levelOf_stays_low _ _ (by
        intro op hop p v hv
        by_cases hdir : INPUT = s.ddIsOutput
        · simp [dirOps, hdir] at hop
        · rw [hv] at hop
          simp only [dirOps, hdir, if_false, List.mem_cons, LineOp.digitalWrite.injEq,
            List.mem_singleton, reduceCtorEq, false_or, List.not_mem_nil, or_false] at hop
          rcases hop with h | h <;> exact Or.inr h.2)
    have h3 : levelOf s.pinDC LOW (if k = 0 then [] else [LineOp.cc_delay 2]) = LOW := by
      split <;> rfl
    have h4 : levelOf s.pinDC LOW (ledOps s.pinReadLED LOW) = LOW :=
      levelOf_stays_low _ _ (by
        intro op hop p v hv
        by_cases hl : s.pinReadLED = 0
        · simp [ledOps, hl] at hop
        · simp only [ledOps, ne_eq, hl, not_false_eq_true, if_true, List.mem_singleton] at hop
          rw [hop] at hv
          injection hv with _ hlv
          exact Or.inr hlv.symm)
    simp only [switchReadOps, levelOf_append, h1, h2, h3, h4, levelOf_pollOps,
      show levelOf s.pinDC LOW [LineOp.cc_delay 2] = LOW from rfl]

theorem switchRead_polls_until_ready_witness :
    demoSession.active = true ∧ demoSession.inDebugMode = true
      ∧ demoTarget (demoSession.reads + 0) = HIGH ∧ demoTarget (demoSession.reads + 1) = LOW
      ∧ switchRead demoTarget 4 demoSession = .done 0
          { demoSession with ddIsOutput := INPUT,
                             log := demoSession.log ++ switchReadOps demoSession 1,
                             reads := demoSession.reads + 1 + 1 }
      ∧ countReads (switchReadOps demoSession 1) = 1 + 1
      ∧ clockPulses demoSession.pinDC (switchReadOps demoSession 1) = 8 * 1
      ∧ levelOf demoSession.pinDC LOW (switchReadOps demoSession 1) = LOW :=
  ⟨by decide, by decide, by decide, by decide,
    switchRead_polls_until_ready demoTarget 4 1 demoSession (by decide) (by decide)
      (by decide) (by decide) (by decide) (by decide)⟩

theorem pollLoop_busy (din : Nat → Nat) (pinDD_I pinDC : Int) (n : Nat) :
    ∀ (didWait : Nat) (s : CCDebugger), (∀ j, din (s.reads + j) = HIGH) →
      pollLoop din pinDD_I pinDC n didWait s
        = .spinning { s with log := s.log ++ busyOps pinDD_I pinDC n,
                             reads := s.reads + n } := by
  induction n with
  | zero => intro didWait s _; simp [pollLoop, busyOps]
  | succ m ih =>
    intro didWait s hh
    have h0 : din s.reads = HIGH := by simpa using hh 0
    simp only [pollLoop, bind_run, digitalRead_run, andThen_done, ite_run, h0, if_true,
      clockLoop_run]
    rw [ih 1 _ (by
      intro j
      have := hh (1 + j)
      simpa [Nat.add_assoc] using this)]
    simp [busyOps, Nat.add_assoc, Nat.add_comm 1 m]

/-- C16.  `switchRead` never gives up on a target that is never ready.  With a
data-in line that reads HIGH on every sample, for every injected bound `n` the
call issued while active and in debug mode has not returned after `n` poll
rounds: it is still polling, having taken `n` samples and emitted `8*n` clock
pulses after the direction switch and the settling delay.  So for no number of
rounds does it return a value. -/
theorem switchRead_never_returns_when_busy (din : Nat → Nat) (s : CCDebugger)
    (ha : s.active = true) (hd : s.inDebugMode = true)
    (hhigh : ∀ j, din (s.reads + j) = HIGH) (n : Nat) :
    switchRead din n s = .spinning
        { s with ddIsOutput := INPUT,
                 log := s.log ++ (ledOps s.pinReadLED HIGH
                   ++ dirOps s.pinDD_I s.pinDD_O s.ddIsOutput INPUT
                   ++ [LineOp.cc_delay 2] ++ busyOps s.pinDD_I s.pinDC n),
                 reads := s.reads + n }
      ∧ countReads (busyOps s.pinDD_I s.pinDC n) = n
      ∧ clockPulses s.pinDC (busyOps s.pinDD_I s.pinDC n) = 8 * n
      ∧ (switchRead din n s).value = none := by
  have hp := fun (t : CCDebugger) (ht : t.reads = s.reads) =>
    pollLoop_busy din s.pinDD_I s.pinDC n 0 t (by simpa [ht] using hhigh)
  have hrun : switchRead din n s = .spinning
      { s with ddIsOutput := INPUT,
               log := s.log ++ (ledOps s.pinReadLED HIGH
                 ++ dirOps s.pinDD_I s.pinDD_O s.ddIsOutput INPUT
                 ++ [LineOp.cc_delay 2] ++ busyOps s.pinDD_I s.pinDC n),
               reads := s.reads + n } := by
    by_cases hl : s.pinReadLED = 0 <;>
      simp [switchRead, ha, hd, setDDDirection_run, hp, ledOps, hl]
  exact ⟨hrun, countReads_busyOps _ _ _, clockPulses_busyOps _ _ _, by rw [hrun]; rfl⟩

theorem switchRead_never_returns_when_busy_witness :
    demoSession.active = true ∧ demoSession.inDebugMode = true
      ∧ clockPulses demoSession.pinDC (busyOps demoSession.pinDD_I demoSession.pinDC 1000)
          = 8 * 1000
      ∧ (switchRead busyTarget 1000 demoSession).value = none :=
  ⟨by decide, by decide,
    (switchRead_never_returns_when_busy busyTarget demoSession (by decide) (by decide)
      (fun _ => rfl) 1000).2.2⟩

/-- C17.  For every state and every flag value equal to `active` (activate
while already active, deactivate while already inactive), `setActive` makes no
call to the board and changes nothing in the session but `errorFlag`, which
becomes 0 (none): `active`, `inDebugMode` and `ddIsOutput` keep their
values. -/
theorem setActive_same_is_noop (din : Nat → Nat) (bound : Nat) (enable : Bool)
    (s : CCDebugger) (h : enable = s.active) :
    setActive din bound enable s = .done () { s with errorFlag := 0 } :=
  setActive_same_run din bound enable s h

theorem setActive_same_is_noop_witness :
    true = demoSession.active
      ∧ setActive demoTarget 4 true demoSession = .done () { demoSession with errorFlag := 0 } :=
  ⟨by decide, setActive_same_is_noop demoTarget 4 true demoSession (by decide)⟩

/-! ## After a command -/

theorem command_rejected_outside_debug_mode (din : Nat → Nat) (bound : Nat) (c : Call)
    (hc : c.isCommand = true) (s : CCDebugger)
    (ha : s.active = true) (hd : s.inDebugMode = false) :
    c.run din bound s = .done 0 { s with errorFlag := 2 } := by
  cases c <;> simp [Call.isCommand] at hc <;>
    simp [Call.run, CCDebugger.exit, getConfig, setConfig,
      exec1, exec2, exec3, execi, getChipID, getPC, getStatus, step, chipErase, ha, hd]

theorem command_has_transaction (c : Call) (hc : c.isCommand = true) :
    ∃ tx, c.transaction = some tx := by
  cases c <;> simp [Call.isCommand] at hc <;> exact ⟨_, rfl⟩

/-- A catalog command issued while active and in debug mode on a target that
becomes ready returns and leaves `active`, `inDebugMode` (but for `exit`) and
`errorFlag` as they were. -/
theorem command_done (din : Nat → Nat) (bound k : Nat) (c : Call) (hc : c.isCommand = true)
    (s : CCDebugger) (ha : s.active = true) (hd : s.inDebugMode = true) (hb : k < bound)
    (hbusy : ∀ j, j < k → din (s.reads + j) = HIGH) (hready : din (s.reads + k) ≠ HIGH) :
    ∃ v s1, c.run din bound s = .done v s1 ∧ s1.active = true
      ∧ s1.inDebugMode = (if c = Call.exit then false else true)
      ∧ s1.errorFlag = s.errorFlag := by
  obtain ⟨tx, htx⟩ := command_has_transaction c hc
  obtain ⟨s1, h1, ha1, hd1, he1, -⟩ := transact_done din bound k tx s ha hd hb hbusy hready
  refine ⟨_, c.settle s1, by rw [run_eq_transact din bound c tx htx s ha hd, h1, andThen_done],
    ?_, ?_, ?_⟩
  · unfold Call.settle; split <;> exact ha1
  · unfold Call.settle; split
    · rfl
    · exact hd1
  · rw [settle_errorFlag, he1]

/-- C18.  The exit command clears the debug-mode flag: issued while active and
in debug mode on a target that is busy for `k` ready checks and then ready,
`exit()` returns (0) and leaves `active` set and `inDebugMode` cleared, so
every catalog command issued immediately afterwards returns 0 and changes
nothing but `errorFlag`, which becomes 2 (notInDebugMode): it touches no
line. -/
theorem exit_clears_debug_flag (din : Nat → Nat) (bound k : Nat) (s : CCDebugger)
    (ha : s.active = true) (hd : s.inDebugMode = true) (hb : k < bound)
    (hbusy : ∀ j, j < k → din (s.reads + j) = HIGH) (hready : din (s.reads + k) ≠ HIGH) :
    ∃ s1, CCDebugger.exit din bound s = .done 0 s1 ∧ s1.active = true
      ∧ s1.inDebugMode = false
      ∧ ∀ c : Call, c.isCommand = true →
          c.run din bound s1 = .done 0 { s1 with errorFlag := 2 } := by
  obtain ⟨s1, h1, ha1, -, -, -⟩ :=
    transact_done din bound k ⟨[0x48], 1⟩ s ha hd hb hbusy hready
  have e1 := run_eq_transact din bound Call.exit _ rfl s ha hd
  simp only [Call.run] at e1
  rw [h1, andThen_done] at e1
  refine ⟨Call.exit.settle s1, by rw [e1]; rfl, ha1, rfl, ?_⟩
  intro c hc
  exact command_rejected_outside_debug_mode din bound c hc _ ha1 rfl

theorem exit_clears_debug_flag_witness :
    demoSession.active = true ∧ demoSession.inDebugMode = true
      ∧ ∃ s1, CCDebugger.exit demoTarget 4 demoSession = .done 0 s1 ∧ s1.active = true
        ∧ s1.inDebugMode = false
        ∧ ∀ c : Call, c.isCommand = true →
            c.run demoTarget 4 s1 = .done 0 { s1 with errorFlag := 2 } :=
  ⟨by decide, by decide,
    exit_clears_debug_flag demoTarget 4 1 demoSession (by decide) (by decide) (by decide)
      (by decide) (by decide)⟩

/-- C19.  The last-error field is sticky.  Every public operation other than
`setActive` and `enter` whose guards hold (the catalog commands and `write`,
`switchRead`: active and in debug mode; `read`: active; `switchWrite`, `setLED`,
`error`: none), on a target that is busy for `k` ready checks and then ready,
returns and leaves `errorFlag` exactly as it found it, so a non-zero
`errorFlag` left by a rejected call survives a later successful one.  A
successful `enter()` sets it to 0, and so does `setActive` whenever it does not
deactivate a session that is in debug mode. -/
theorem errorFlag_sticky (din : Nat → Nat) (bound k : Nat) (s : CCDebugger) (hb : k < bound)
    (hbusy : ∀ j, j < k → din (s.reads + j) = HIGH) (hready : din (s.reads + k) ≠ HIGH) :
    (∀ c : Call, c ≠ Call.enter → (∀ enable, c ≠ Call.setActive enable) → c.guard s = true →
        ∃ v s1, c.run din bound s = .done v s1 ∧ s1.errorFlag = s.errorFlag)
      ∧ (s.active = true → ∃ s1, enter s = .done 0 s1 ∧ s1.errorFlag = 0)
      ∧ (∀ enable, (enable = true ∨ s.inDebugMode = false ∨ enable = s.active) →
          ∃ s1, setActive din bound enable s = .done () s1 ∧ s1.errorFlag = 0) := by
  refine ⟨?_, ?_, ?_⟩
  · intro c hne hns hg
    by_cases hc : c.isCommand = true
    · have hg' : s.active = true ∧ s.inDebugMode = true := by
        cases c <;> simp [Call.isCommand] at hc <;> simpa [Call.guard] using hg
      obtain ⟨v, s1, h1, -, -, he⟩ :=
        command_done din bound k c hc s hg'.1 hg'.2 hb hbusy hready
      exact ⟨v, s1, h1, he⟩
    · cases c with
      | setLED r w =>
        obtain ⟨s1, h1, he⟩ : ∃ s1, setLED r w s = .done () s1 ∧ s1.errorFlag = s.errorFlag :=
          ⟨_, setLED_run r w s, rfl⟩
        exact ⟨0, s1, by simp only [Call.run, bind_run, h1, andThen_done, pure_run], he⟩
      | setActive enable => exact absurd rfl (hns enable)
      | error => exact ⟨_, _, error_run s, rfl⟩
      | enter => exact absurd rfl hne
      | write data =>
        have hg' : s.active = true ∧ s.inDebugMode = true := by simpa [Call.guard] using hg
        obtain ⟨s1, h1, -, -, he, -⟩ := write_done data s hg'.1 hg'.2
        exact ⟨_, s1, h1, he⟩
      | switchRead =>
        have hg' : s.active = true ∧ s.inDebugMode = true := by simpa [Call.guard] using hg
        obtain ⟨s1, h1, -, -, he, -⟩ :=
          switchRead_done din bound k s hg'.1 hg'.2 hb hbusy hready
        exact ⟨_, s1, h1, he⟩
      | switchWrite =>
        obtain ⟨s1, h1, -, -, he, -⟩ := switchWrite_done s
        exact ⟨_, s1, h1, he⟩
      | read =>
        have hg' : s.active = true := by simpa [Call.guard] using hg
        obtain ⟨s1, h1, -, -, he, -⟩ := read_done din s hg'
        exact ⟨_, s1, h1, he⟩
      | _ => exact absurd rfl hc
  · intro ha
    exact ⟨_, enter_run s ha, rfl⟩
  · intro enable h
    by_cases hsame : enable = s.active
    · exact ⟨_, setActive_same_run din bound enable s hsame, rfl⟩
    · cases enable with
      | true =>
        have ha : s.active = false := by
          cases hsa : s.active
          · rfl
          · exact absurd hsa.symm hsame
        exact ⟨_, setActive_true_run din bound s ha, rfl⟩
      | false =>
        have ha : s.active = true := by
          cases hsa : s.active
          · exact absurd hsa.symm hsame
          · rfl
        have hd : s.inDebugMode = false := by
          rcases h with h | h | h
          · exact absurd h (by decide)
          · exact h
          · exact absurd h hsame
        exact ⟨_, setActive_false_run din bound s ha, by simp [hd]⟩

theorem errorFlag_sticky_witness :
    (CCDebugger.write 0xA5 demoFresh).state.errorFlag = 2
      ∧ Call.read.guard (CCDebugger.write 0xA5 demoFresh).state = true
      ∧ ∃ v s1, Call.read.run demoTarget 4 (CCDebugger.write 0xA5 demoFresh).state = .done v s1
        ∧ s1.errorFlag = (CCDebugger.write 0xA5 demoFresh).state.errorFlag :=
  ⟨by decide, by decide,
    (errorFlag_sticky demoTarget 4 1 (CCDebugger.write 0xA5 demoFresh).state (by decide)
      (by decide) (by decide)).1 Call.read (by decide) (by decide) (by decide)⟩

/-- C20 (defect in the code).  `setLED` does not prepare the read indicator
pin: the block guarded by `pinReadLED` configures `pinWriteLED`.  For every
pair of pins the call stores both identifiers and records, when `pinReadLED`
is non-zero, `pinMode(pinWriteLED, OUTPUT)` and `digitalWrite(pinWriteLED, LOW)`,
and the same two calls again when `pinWriteLED` is non-zero; no call names
`pinReadLED`.  With `pinReadLED = 7` and `pinWriteLED = 0` it configures pin 0
and leaves pin 7 unconfigured. -/
theorem setLED_configures_write_pin_only (pinReadLED pinWriteLED : Int) (s : CCDebugger) :
    setLED pinReadLED pinWriteLED s = .done ()
        { s with pinReadLED := pinReadLED, pinWriteLED := pinWriteLED,
                 log := s.log
                   ++ ((if pinReadLED ≠ 0 then
                          [LineOp.pinMode pinWriteLED OUTPUT, LineOp.digitalWrite pinWriteLED LOW]
                        else [])
                     ++ (if pinWriteLED ≠ 0 then
                          [LineOp.pinMode pinWriteLED OUTPUT, LineOp.digitalWrite pinWriteLED LOW]
                        else [])) }
      ∧ (setLED 7 0 demoFresh).state.log
          = demoFresh.log ++ [LineOp.pinMode 0 OUTPUT, LineOp.digitalWrite 0 LOW] := by
  refine ⟨setLED_run pinReadLED pinWriteLED s, ?_⟩
  rw [setLED_run]
  rfl

end CCLib
